import Mathlib

/-!
Verification of the tegg Agent Runtime Core (agent-runtime package).

This file is a shallow embedding of the runtime's data model and operations:

* `FileAgentStore` (AgentStore.ts / FileAgentStore.ts): a durable record store
  persisting Thread and Run records as JSON files.  The filesystem is modelled
  as two association lists from file-path strings to parsed records (the
  `threads/` and `runs/` directories are distinct subtrees, and
  JSON.stringify/JSON.parse round-tripping of records is assumed faithful).
  Node's `path.join` / POSIX path normalisation and the `safePath` traversal
  guard are modelled at the string level, exactly following Node's algorithm
  (split on slashes, drop empty and dot components, resolve `..` against a
  stack, re-join).  JS `String.prototype.startsWith` is modelled as a
  character-list prefix test.
* The stream adapter (`toContentBlocks`, `toMessageObject`,
  `extractFromStreamMessages`, `toInputMessageObjects` from
  enhanceAgentController.ts).
* The default handlers (`defaultCreateThread`, `defaultGetThread`,
  `defaultSyncRun`, `defaultStreamRun`, `defaultGetRun`, `defaultCancelRun`).
  Effects are made explicit: randomness (crypto.randomUUID) and the clock
  (Date.now) are modelled by a `World` carrying supplies, thrown JS `Error`s
  by `Except String` (the String being the error message), SSE writes by an
  accumulated list of `SSEFrame`s, and the user generator `execRun` by the
  list of chunks it yields followed by an optional thrown error message.
  Concurrency is resolved at the points the code itself serialises it: the
  model of `defaultCancelRun` takes the store state as re-read after the
  abort-and-await of any in-flight task has settled, and the stream model
  covers runs in which the client never disconnects.
-/

/-! ## Basic data model (AgentControllerTypes.ts, AgentStore.ts) -/

/-- Message roles.  `InputMessage.role` ranges over all three; the runtime
casts surviving roles unchanged into thread-history messages. -/
inductive Role
  | user
  | assistant
  | system
  deriving DecidableEq, Repr

/-- MessageObject.status values. -/
inductive MsgStatus
  | in_progress
  | incomplete
  | completed
  deriving DecidableEq, Repr

/-- RunStatus values. -/
inductive RunStatus
  | queued
  | in_progress
  | completed
  | failed
  | cancelled
  | cancelling
  | expired
  deriving DecidableEq, Repr

/-- Render a RunStatus the way JS string interpolation of the status value
does. -/
def statusString : RunStatus → String
  | .queued => "queued"
  | .in_progress => "in_progress"
  | .completed => "completed"
  | .failed => "failed"
  | .cancelled => "cancelled"
  | .cancelling => "cancelling"
  | .expired => "expired"

/-- Metadata objects (Record&lt;string, unknown&gt;) modelled shallowly as
association lists of string keys to string values. -/
abbrev Metadata := List (String × String)

/-- A text content block `{type: "text", text: {value, annotations: []}}`.
`annotations` is always the empty array; the constant `type` tag and the
empty annotations array are left implicit. -/
structure TextContentBlock where
  value : String
  deriving DecidableEq, Repr

/-- The only specified content block kind. -/
abbrev MessageContentBlock := TextContentBlock

/-- MessageObject (OpenAI thread.message shape).  `object` is the literal
"thread.message", kept as a field so projections can be stated. -/
structure MessageObject where
  id : String
  object : String
  created_at : Int
  thread_id : Option String := none
  run_id : Option String := none
  role : Role
  status : MsgStatus
  content : List MessageContentBlock
  deriving DecidableEq, Repr

/-- An input content part `{type: "text", text}`; the `type` field is the
literal "text" by typing and left implicit. -/
structure InputContentPart where
  text : String
  deriving DecidableEq, Repr

/-- InputMessage.content: a plain string or a list of text parts. -/
inductive InputContent
  | str (s : String)
  | parts (l : List InputContentPart)
  deriving DecidableEq, Repr

/-- InputMessage as submitted by clients. -/
structure InputMessage where
  role : Role
  content : InputContent
  metadata : Option Metadata := none
  deriving DecidableEq, Repr

/-- AgentRunConfig. -/
structure AgentRunConfig where
  max_iterations : Option Int := none
  timeout_ms : Option Int := none
  deriving DecidableEq, Repr

/-- AgentRunUsage as yielded inside stream chunks: all fields optional. -/
structure AgentRunUsage where
  total_tokens : Option Int := none
  prompt_tokens : Option Int := none
  completion_tokens : Option Int := none
  duration_ms : Option Int := none
  deriving DecidableEq, Repr

/-- Accumulated usage as persisted on a Run. -/
structure RunUsage where
  prompt_tokens : Int
  completion_tokens : Int
  total_tokens : Int
  deriving DecidableEq, Repr

/-- last_error payloads `{code, message}`. -/
structure LastError where
  code : String
  message : String
  deriving DecidableEq, Repr

/-- The `message` field of a stream chunk:
`{role: string, content: string | {type, text}[]}`. -/
structure StreamMsgPart where
  type : String
  text : String
  deriving DecidableEq, Repr

/-- Content of a stream chunk's message: a string or a list of typed parts
(the part type is free-form here, unlike `InputContentPart`). -/
inductive StreamMsgContent
  | str (s : String)
  | parts (l : List StreamMsgPart)
  deriving DecidableEq, Repr

/-- The `message` field of an AgentStreamMessage. -/
structure StreamMsgField where
  role : String
  content : StreamMsgContent
  deriving DecidableEq, Repr

/-- AgentStreamMessage: one chunk yielded by the user generator.  `type` is
free-form; semantics depend only on the presence of `message` and `usage`. -/
structure AgentStreamMessage where
  type : String
  message : Option StreamMsgField := none
  usage : Option AgentRunUsage := none
  deriving DecidableEq, Repr

/-- ThreadRecord as persisted by the store. -/
structure ThreadRecord where
  id : String
  object : String
  messages : List MessageObject
  metadata : Metadata
  created_at : Int
  deriving DecidableEq, Repr

/-- RunRecord as persisted by the store.  Fields that are optional or
nullable in TS are `Option`s (absent and null are not distinguished). -/
structure RunRecord where
  id : String
  object : String
  thread_id : Option String := none
  status : RunStatus
  input : List InputMessage
  output : Option (List MessageObject) := none
  last_error : Option LastError := none
  usage : Option RunUsage := none
  config : Option AgentRunConfig := none
  metadata : Option Metadata := none
  created_at : Int
  started_at : Option Int := none
  completed_at : Option Int := none
  cancelled_at : Option Int := none
  failed_at : Option Int := none
  deriving DecidableEq, Repr

/-- RunObject: the public Run projection returned by handlers.  A JS object
key that a given handler does not put on the literal is `none`. -/
structure RunObject where
  id : String
  object : String
  created_at : Int
  thread_id : Option String := none
  status : RunStatus
  last_error : Option LastError := none
  started_at : Option Int := none
  completed_at : Option Int := none
  cancelled_at : Option Int := none
  failed_at : Option Int := none
  usage : Option RunUsage := none
  metadata : Option Metadata := none
  output : Option (List MessageObject) := none
  config : Option AgentRunConfig := none
  deriving DecidableEq, Repr

/-- The body wrapper `input: {messages: [...]}` of CreateRunInput. -/
structure RunInputBody where
  messages : List InputMessage
  deriving DecidableEq, Repr

/-- CreateRunInput request body. -/
structure CreateRunInput where
  thread_id : Option String := none
  input : RunInputBody
  config : Option AgentRunConfig := none
  metadata : Option Metadata := none
  deriving DecidableEq, Repr

/-! ## POSIX path model (node:path, as used by FileAgentStore)

Paths are strings.  `splitSlash` splits a character list at `/` (exactly the
component decomposition slash-splitting performs); `normStack` is the POSIX
normalisation algorithm (skip empty and `.` components, resolve `..` against
the emitted stack, keeping leading `..` only for relative paths);
`pathJoin` is Node's `path.posix.join` of two segments (concatenate the
non-empty segments with `/`, then normalise).  Trailing-slash preservation
is not modelled; it is unreachable from `safePath`, whose second segment
always ends in ".json". -/

/-- Split a character list on `/` (auxiliary accumulator holds the current
component reversed). -/
def splitSlash : List Char → List Char → List (List Char)
  | [], cur => [cur.reverse]
  | c :: cs, cur =>
    if c = '/' then cur.reverse :: splitSlash cs []
    else splitSlash cs (c :: cur)

/-- Path components of a string. -/
def components (s : String) : List (List Char) :=
  splitSlash s.data []

/-- One step of POSIX normalisation over a reversed output stack. -/
def normStep (abs : Bool) (stack : List (List Char)) (c : List Char) : List (List Char) :=
  if c = [] ∨ c = ['.'] then stack
  else if c = ['.', '.'] then
    match stack with
    | [] => if abs then [] else [c]
    | t :: rest => if t = ['.', '.'] then c :: stack else rest
  else c :: stack

/-- POSIX component normalisation. -/
def normComps (abs : Bool) (cs : List (List Char)) : List (List Char) :=
  (cs.foldl (normStep abs) []).reverse

/-- Join components with `/`. -/
def renderComps : List (List Char) → List Char
  | [] => []
  | [c] => c
  | c :: cs => c ++ '/' :: renderComps cs

/-- Render an (absolute?, components) pair back to a path string, following
Node (`"/"` for an empty absolute path, `"."` for an empty relative one). -/
def renderPath (abs : Bool) (cs : List (List Char)) : String :=
  if cs = [] then (if abs then "/" else ".")
  else (if abs then ⟨'/' :: renderComps cs⟩ else ⟨renderComps cs⟩)

/-- Node `path.posix.normalize` (minus trailing-slash preservation). -/
def normalizeStr (s : String) : String :=
  let abs := s.data.head? = some '/'
  renderPath abs (normComps abs (components s))

/-- Node `path.posix.join` restricted to two segments, as used in
FileAgentStore. -/
def pathJoin (a b : String) : String :=
  if a = "" then (if b = "" then "." else normalizeStr b)
  else if b = "" then normalizeStr a
  else normalizeStr (a ++ "/" ++ b)

/-- Boolean character-list prefix test (model of JS
`String.prototype.startsWith`). -/
def isPref : List Char → List Char → Bool
  | [], _ => true
  | _ :: _, [] => false
  | a :: as, b :: bs => a = b && isPref as bs

/-- A single-quote character as a string (used to build error messages). -/
def squote : String := ⟨[Char.ofNat 39]⟩

/-- FileAgentStore.safePath: reject empty ids, join `id + ".json"` onto the
base directory, and require the joined path to start with `baseDir + "/"`. -/
def safePath (baseDir : String) (id : String) : Except String String :=
  if id = "" then .error "Invalid id: id must not be empty"
  else
    let filePath := pathJoin baseDir (id ++ ".json")
    if isPref (baseDir ++ "/").data filePath.data then .ok filePath
    else .error ("Invalid id: " ++ id)

/-- A component is clean when it is nonempty and neither `.` nor `..`. -/
def cleanComp (c : List Char) : Bool :=
  ¬(c = [] ∨ c = ['.'] ∨ c = ['.', '.'])

/-- `r` lies strictly inside the directory `base`: it is `base ++ "/"`
followed by a nonempty suffix all of whose path components are clean (so
resolving `r` lands strictly below `base`). -/
def strictlyInside (base r : String) : Bool :=
  isPref (base ++ "/").data r.data &&
    (let s := r.data.drop (base.data.length + 1)
     !s.isEmpty && (splitSlash s []).all cleanComp)

/-! ## Effects: randomness and the clock

`crypto.randomUUID()` and `Date.now()` are modelled by supplies carried in a
`World`; each call consumes the next element of its supply. -/

/-- Deterministic supplies for uuids and clock readings. -/
structure World where
  uuids : Nat → String
  seed : Nat
  times : Nat → Int
  tick : Nat

/-- Draw the next uuid. -/
def World.nextUuid (w : World) : String × World :=
  (w.uuids w.seed, { w with seed := w.seed + 1 })

/-- nowUnix(): the next clock reading (Unix seconds). -/
def World.nowUnix (w : World) : Int × World :=
  (w.times w.tick, { w with tick := w.tick + 1 })

/-! ## FileAgentStore -/

/-- Association-list lookup keyed by path string (first match wins; a write
prepends, which models overwriting the file at that path). -/
def alookup {α : Type} : List (String × α) → String → Option α
  | [], _ => none
  | (k, v) :: rest, key => if k = key then some v else alookup rest key

/-- The filesystem under the store's data directory: parsed records indexed
by file path, one map per subdirectory. -/
structure FS where
  threads : List (String × ThreadRecord)
  runs : List (String × RunRecord)

/-- FileAgentStore configuration. -/
structure FileAgentStore where
  dataDir : String

/-- threadsDir = path.join(dataDir, "threads"). -/
def FileAgentStore.threadsDir (st : FileAgentStore) : String :=
  pathJoin st.dataDir "threads"

/-- runsDir = path.join(dataDir, "runs"). -/
def FileAgentStore.runsDir (st : FileAgentStore) : String :=
  pathJoin st.dataDir "runs"

/-- FileAgentStore.createThread: fresh `thread_<uuid>` id, empty messages,
given or empty metadata, written at `safePath(threadsDir, id)`. -/
def FileAgentStore.createThread (st : FileAgentStore) (metadata : Option Metadata)
    (fs : FS) (w : World) : Except String (ThreadRecord × FS × World) := do
  let (uuid, w) := w.nextUuid
  let threadId := "thread_" ++ uuid
  let (now, w) := w.nowUnix
  let record : ThreadRecord :=
    { id := threadId, object := "thread", messages := [],
      metadata := metadata.getD [], created_at := now }
  let p ← safePath st.threadsDir threadId
  .ok (record, { fs with threads := (p, record) :: fs.threads }, w)

/-- FileAgentStore.getThread: NotFound error when the file is absent. -/
def FileAgentStore.getThread (st : FileAgentStore) (threadId : String)
    (fs : FS) : Except String ThreadRecord := do
  let p ← safePath st.threadsDir threadId
  match alookup fs.threads p with
  | none => .error ("Thread " ++ threadId ++ " not found")
  | some t => .ok t

/-- FileAgentStore.appendMessages: read-modify-write, appending in order. -/
def FileAgentStore.appendMessages (st : FileAgentStore) (threadId : String)
    (messages : List MessageObject) (fs : FS) : Except String FS := do
  let thread ← st.getThread threadId fs
  let thread := { thread with messages := thread.messages ++ messages }
  let p ← safePath st.threadsDir threadId
  .ok { fs with threads := (p, thread) :: fs.threads }

/-- FileAgentStore.createRun: fresh `run_<uuid>` id, status queued. -/
def FileAgentStore.createRun (st : FileAgentStore) (input : List InputMessage)
    (threadId : Option String) (config : Option AgentRunConfig)
    (metadata : Option Metadata) (fs : FS) (w : World) :
    Except String (RunRecord × FS × World) := do
  let (uuid, w) := w.nextUuid
  let runId := "run_" ++ uuid
  let (now, w) := w.nowUnix
  let record : RunRecord :=
    { id := runId, object := "thread.run", thread_id := threadId,
      status := .queued, input := input, config := config,
      metadata := metadata, created_at := now }
  let p ← safePath st.runsDir runId
  .ok (record, { fs with runs := (p, record) :: fs.runs }, w)

/-- FileAgentStore.getRun: NotFound error when the file is absent. -/
def FileAgentStore.getRun (st : FileAgentStore) (runId : String)
    (fs : FS) : Except String RunRecord := do
  let p ← safePath st.runsDir runId
  match alookup fs.runs p with
  | none => .error ("Run " ++ runId ++ " not found")
  | some r => .ok r

/-- A Partial&lt;RunRecord&gt;: an outer `some` means the key is present on the
update object (possibly with the value undefined, hence the nested Options
for fields that are themselves optional).  `object` is omitted: its TS type
on a partial is the literal "thread.run", so its presence cannot alter the
record. -/
structure RunUpdates where
  id : Option String := none
  thread_id : Option (Option String) := none
  status : Option RunStatus := none
  input : Option (List InputMessage) := none
  output : Option (Option (List MessageObject)) := none
  last_error : Option (Option LastError) := none
  usage : Option (Option RunUsage) := none
  config : Option (Option AgentRunConfig) := none
  metadata : Option (Option Metadata) := none
  created_at : Option Int := none
  started_at : Option (Option Int) := none
  completed_at : Option (Option Int) := none
  cancelled_at : Option (Option Int) := none
  failed_at : Option (Option Int) := none
  deriving DecidableEq, Repr

/-- Object.assign(run, updates): shallow merge, keys present on the update
object overwrite the record's fields. -/
def mergeRun (r : RunRecord) (u : RunUpdates) : RunRecord :=
  { id := u.id.getD r.id
    object := r.object
    thread_id := u.thread_id.getD r.thread_id
    status := u.status.getD r.status
    input := u.input.getD r.input
    output := u.output.getD r.output
    last_error := u.last_error.getD r.last_error
    usage := u.usage.getD r.usage
    config := u.config.getD r.config
    metadata := u.metadata.getD r.metadata
    created_at := u.created_at.getD r.created_at
    started_at := u.started_at.getD r.started_at
    completed_at := u.completed_at.getD r.completed_at
    cancelled_at := u.cancelled_at.getD r.cancelled_at
    failed_at := u.failed_at.getD r.failed_at }

/-- FileAgentStore.updateRun: read, shallow-merge, write (at the path derived
from the `runId` argument). -/
def FileAgentStore.updateRun (st : FileAgentStore) (runId : String)
    (updates : RunUpdates) (fs : FS) : Except String FS := do
  let run ← st.getRun runId fs
  let run := mergeRun run updates
  let p ← safePath st.runsDir runId
  .ok { fs with runs := (p, run) :: fs.runs }

/-! ## Stream adapter (enhanceAgentController.ts) -/

/-- toContentBlocks: wrap a string as one text block; keep the text-typed
parts of a part list, in order; a missing message yields no blocks. -/
def toContentBlocks : Option StreamMsgField → List MessageContentBlock
  | none => []
  | some msg =>
    match msg.content with
    | .str s => [{ value := s }]
    | .parts l => (l.filter (fun p => p.type = "text")).map (fun p => { value := p.text })

/-- toMessageObject: a fresh completed assistant MessageObject for a chunk's
message (draws a uuid and a clock reading). -/
def toMessageObject (msg : Option StreamMsgField) (runId : Option String)
    (w : World) : MessageObject × World :=
  let (uuid, w) := w.nextUuid
  let (now, w) := w.nowUnix
  ({ id := "msg_" ++ uuid, object := "thread.message", created_at := now,
     run_id := runId, role := .assistant, status := .completed,
     content := toContentBlocks msg }, w)

/-- The loop body state of extractFromStreamMessages. -/
structure ExtractState where
  output : List MessageObject
  promptTokens : Int
  completionTokens : Int
  hasUsage : Bool
  w : World

/-- One iteration of the extractFromStreamMessages loop. -/
def extractStep (runId : Option String) (st : ExtractState)
    (msg : AgentStreamMessage) : ExtractState :=
  let st :=
    match msg.message with
    | some m =>
      let (obj, w) := toMessageObject (some m) runId st.w
      { st with output := st.output ++ [obj], w := w }
    | none => st
  match msg.usage with
  | some u =>
    { st with
      hasUsage := true
      promptTokens := st.promptTokens + u.prompt_tokens.getD 0
      completionTokens := st.completionTokens + u.completion_tokens.getD 0 }
  | none => st

/-- extractFromStreamMessages: collect a fresh assistant MessageObject per
message-carrying chunk, accumulate usage, and report usage iff some chunk
carried a usage field. -/
def extractFromStreamMessages (messages : List AgentStreamMessage)
    (runId : Option String) (w : World) :
    List MessageObject × Option RunUsage × World :=
  let st := messages.foldl (extractStep runId)
    { output := [], promptTokens := 0, completionTokens := 0,
      hasUsage := false, w := w }
  let usage : Option RunUsage :=
    if st.hasUsage then
      some { prompt_tokens := st.promptTokens,
             completion_tokens := st.completionTokens,
             total_tokens := st.promptTokens + st.completionTokens }
    else none
  (st.output, usage, st.w)

/-- Convert one non-system input message into a thread-history MessageObject
(string content wrapped as one text block; part lists mapped part-wise). -/
def toInputMessageObject (threadId : Option String) (m : InputMessage)
    (w : World) : MessageObject × World :=
  let (uuid, w) := w.nextUuid
  let (now, w) := w.nowUnix
  ({ id := "msg_" ++ uuid, object := "thread.message", created_at := now,
     thread_id := threadId, role := m.role, status := .completed,
     content :=
       match m.content with
       | .str s => [{ value := s }]
       | .parts l => l.map (fun p => { value := p.text }) }, w)

/-- toInputMessageObjects: drop system-role messages, convert the rest in
order. -/
def toInputMessageObjects (messages : List InputMessage)
    (threadId : Option String) (w : World) : List MessageObject × World :=
  (messages.filter (fun m => m.role ≠ .system)).foldl
    (fun (acc : List MessageObject × World) m =>
      let (obj, w) := toInputMessageObject threadId m acc.2
      (acc.1 ++ [obj], w))
    ([], w)

/-! ## Default handlers (enhanceAgentController.ts)

Handlers thread the filesystem and the `World` explicitly and always return
the final state, so the failed-path persistence is observable.  The user
generator is passed as the list of chunks it yields followed by `none`
(normal return) or `some msg` (it throws an error with that message after
its yields). -/

/-- An execRun outcome: yielded chunks, then an optional thrown error. -/
abbrev ExecOutcome := List AgentStreamMessage × Option String

/-- Public Thread projection. -/
structure ThreadObject where
  id : String
  object : String
  created_at : Int
  metadata : Metadata
  deriving DecidableEq, Repr

/-- last_error value recorded for execRun failures. -/
def execErrorOf (e : String) : LastError :=
  { code := "EXEC_ERROR", message := e }

/-- The terminal run statuses. -/
def TERMINAL_RUN_STATUSES : List RunStatus :=
  [.completed, .failed, .cancelled, .expired]

/-- defaultGetRun: full Run projection of the stored record. -/
def defaultGetRun (st : FileAgentStore) (runId : String) (fs : FS) :
    Except String RunObject := do
  let run ← st.getRun runId fs
  .ok
    { id := run.id
      object := "thread.run"
      created_at := run.created_at
      thread_id := run.thread_id
      status := run.status
      last_error := run.last_error
      started_at := run.started_at
      completed_at := run.completed_at
      cancelled_at := run.cancelled_at
      failed_at := run.failed_at
      usage := run.usage
      output := run.output
      config := run.config
      metadata := run.metadata }

/-- defaultCancelRun, from the point after the in-flight task (if any) has
been aborted and awaited: re-read the run, reject terminal statuses, else
persist cancelled and return a projection carrying only id, object,
created_at, thread_id, status and cancelled_at. -/
def defaultCancelRun (st : FileAgentStore) (runId : String) (fs : FS)
    (w : World) : Except String RunObject × FS × World :=
  match st.getRun runId fs with
  | .error e => (.error e, fs, w)
  | .ok run =>
    if run.status ∈ TERMINAL_RUN_STATUSES then
      (.error ("Cannot cancel run with status " ++ squote ++ statusString run.status ++ squote),
        fs, w)
    else
      let (cancelledAt, w) := w.nowUnix
      match st.updateRun runId
          { status := some .cancelled, cancelled_at := some (some cancelledAt) } fs with
      | .error e => (.error e, fs, w)
      | .ok fs =>
        (.ok
          { id := run.id
            object := "thread.run"
            created_at := run.created_at
            thread_id := run.thread_id
            status := .cancelled
            cancelled_at := some cancelledAt }, fs, w)

/-- The catch block of defaultSyncRun: persist failed with an EXEC_ERROR
last_error, then re-raise the original error (a failure of the update
itself propagates instead, as in the source). -/
def syncFail (st : FileAgentStore) (runId : String) (e : String) (fs : FS)
    (w : World) : Except String RunObject × FS × World :=
  let (failedAt, w) := w.nowUnix
  match st.updateRun runId
      { status := some .failed
        last_error := some (some (execErrorOf e))
        failed_at := some (some failedAt) } fs with
  | .error e2 => (.error e2, fs, w)
  | .ok fs => (.error e, fs, w)

/-- The body of defaultSyncRun after thread resolution: create the run, mark
it in_progress, drain execRun, collect output and usage, persist completed,
append converted input messages followed by output to the thread, and return
the projected run; on any error inside the try block, persist failed and
re-raise. -/
def syncRunCore (st : FileAgentStore) (input : CreateRunInput)
    (threadId : String) (exec : ExecOutcome) (fs : FS) (w : World) :
    Except String RunObject × FS × World :=
  match st.createRun input.input.messages (some threadId) input.config
      input.metadata fs w with
  | .error e => (.error e, fs, w)
  | .ok (run, fs, w) =>
    let (startedAt, w) := w.nowUnix
    match st.updateRun run.id
        { status := some .in_progress, started_at := some (some startedAt) } fs with
    | .error e => syncFail st run.id e fs w
    | .ok fs =>
      match exec.2 with
      | some e => syncFail st run.id e fs w
      | none =>
        let (output, usage, w) := extractFromStreamMessages exec.1 (some run.id) w
        let (completedAt, w) := w.nowUnix
        match st.updateRun run.id
            { status := some .completed
              output := some (some output)
              usage := some usage
              completed_at := some (some completedAt) } fs with
        | .error e => syncFail st run.id e fs w
        | .ok fs =>
          let (inputObjs, w) := toInputMessageObjects input.input.messages
            (some threadId) w
          match st.appendMessages threadId (inputObjs ++ output) fs with
          | .error e => syncFail st run.id e fs w
          | .ok fs =>
            (.ok
              { id := run.id
                object := "thread.run"
                created_at := run.created_at
                thread_id := some threadId
                status := .completed
                started_at := some startedAt
                completed_at := some completedAt
                output := some output
                usage := usage
                metadata := run.metadata }, fs, w)

/-- defaultSyncRun: resolve the thread (creating one when its id is absent
from the input), then run the drain-and-finalize body. -/
def defaultSyncRun (st : FileAgentStore) (input : CreateRunInput)
    (exec : ExecOutcome) (fs : FS) (w : World) :
    Except String RunObject × FS × World :=
  match input.thread_id with
  | some tid => syncRunCore st input tid exec fs w
  | none =>
    match st.createThread none fs w with
    | .error e => (.error e, fs, w)
    | .ok (t, fs, w) => syncRunCore st input t.id exec fs w

/-- One SSE frame, by event name and payload. -/
inductive SSEFrame
  | runCreated (r : RunObject)
  | runInProgress (r : RunObject)
  | messageCreated (m : MessageObject)
  | messageDelta (id : String) (content : List MessageContentBlock)
  | messageCompleted (m : MessageObject)
  | runCompleted (r : RunObject)
  | runFailed (r : RunObject)
  | done
  deriving DecidableEq, Repr

/-- The `event:` name of a frame. -/
def eventName : SSEFrame → String
  | .runCreated _ => "thread.run.created"
  | .runInProgress _ => "thread.run.in_progress"
  | .messageCreated _ => "thread.message.created"
  | .messageDelta _ _ => "thread.message.delta"
  | .messageCompleted _ => "thread.message.completed"
  | .runCompleted _ => "thread.run.completed"
  | .runFailed _ => "thread.run.failed"
  | .done => "done"

/-- The for-await loop of defaultStreamRun over the yielded chunks: emitted
delta frames, accumulated content blocks, accumulated prompt and completion
tokens, and the hasUsage flag. -/
def streamLoop (msgId : String) :
    List AgentStreamMessage →
    List SSEFrame × List MessageContentBlock × Int × Int × Bool
  | [] => ([], [], 0, 0, false)
  | c :: cs =>
    let rest := streamLoop msgId cs
    let headFrames : List SSEFrame × List MessageContentBlock :=
      match c.message with
      | some m => ([.messageDelta msgId (toContentBlocks (some m))], toContentBlocks (some m))
      | none => ([], [])
    let headUsage : Int × Int × Bool :=
      match c.usage with
      | some u => (u.prompt_tokens.getD 0, u.completion_tokens.getD 0, true)
      | none => (0, 0, false)
    (headFrames.1 ++ rest.1, headFrames.2 ++ rest.2.1,
      headUsage.1 + rest.2.2.1, headUsage.2.1 + rest.2.2.2.1,
      headUsage.2.2 || rest.2.2.2.2)

/-- The catch block of defaultStreamRun: persist failed (swallowing a store
failure), emit thread.run.failed, then the finally block emits done.  The
handler itself completes normally. -/
def streamFail (st : FileAgentStore) (runId : String) (runObj : RunObject)
    (frames : List SSEFrame) (e : String) (fs : FS) (w : World) :
    Except String Unit × List SSEFrame × FS × World :=
  let (failedAt, w) := w.nowUnix
  let fs :=
    match st.updateRun runId
        { status := some .failed
          last_error := some (some (execErrorOf e))
          failed_at := some (some failedAt) } fs with
    | .error _ => fs
    | .ok fs2 => fs2
  let runObjF :=
    { runObj with
      status := .failed
      failed_at := some failedAt
      last_error := some (execErrorOf e) }
  (.ok (), frames ++ [.runFailed runObjF, .done], fs, w)

/-- The body of defaultStreamRun after thread resolution, for a connected
client that never disconnects (the close-listener abort never fires): emit
the SSE frame sequence of §4.3, inlining the stream adapter per chunk,
persisting in_progress before the loop and completed (or failed) after
it. -/
def streamRunCore (st : FileAgentStore) (input : CreateRunInput)
    (threadId : String) (exec : ExecOutcome) (fs : FS) (w : World) :
    Except String Unit × List SSEFrame × FS × World :=
  match st.createRun input.input.messages (some threadId) input.config
      input.metadata fs w with
  | .error e => (.error e, [], fs, w)
  | .ok (run, fs, w) =>
    let runObj0 : RunObject :=
      { id := run.id
        object := "thread.run"
        created_at := run.created_at
        thread_id := some threadId
        status := .queued
        metadata := run.metadata }
    let frames := [SSEFrame.runCreated runObj0]
    let (startedAt, w) := w.nowUnix
    let runObj1 := { runObj0 with status := .in_progress, started_at := some startedAt }
    match st.updateRun run.id
        { status := some .in_progress, started_at := some (some startedAt) } fs with
    | .error e => (.error e, frames, fs, w)
    | .ok fs =>
      let frames := frames ++ [SSEFrame.runInProgress runObj1]
      let (msgUuid, w) := w.nextUuid
      let msgId := "msg_" ++ msgUuid
      let (msgCreatedAt, w) := w.nowUnix
      let msgObj0 : MessageObject :=
        { id := msgId
          object := "thread.message"
          created_at := msgCreatedAt
          run_id := some run.id
          role := .assistant
          status := .in_progress
          content := [] }
      let frames := frames ++ [SSEFrame.messageCreated msgObj0]
      let (loopFrames, acc, pt, ct, hu) := streamLoop msgId exec.1
      let frames := frames ++ loopFrames
      match exec.2 with
      | some e => streamFail st run.id runObj1 frames e fs w
      | none =>
        let msgObj1 := { msgObj0 with status := .completed, content := acc }
        let frames := frames ++ [SSEFrame.messageCompleted msgObj1]
        let output : List MessageObject := if acc.length > 0 then [msgObj1] else []
        let usage : Option RunUsage :=
          if hu then
            some { prompt_tokens := pt, completion_tokens := ct,
                   total_tokens := pt + ct }
          else none
        let (completedAtStore, w) := w.nowUnix
        match st.updateRun run.id
            { status := some .completed
              output := some (some output)
              usage := some usage
              completed_at := some (some completedAtStore) } fs with
        | .error e => streamFail st run.id runObj1 frames e fs w
        | .ok fs =>
          let (inputObjs, w) := toInputMessageObjects input.input.messages
            (some threadId) w
          match st.appendMessages threadId (inputObjs ++ output) fs with
          | .error e => streamFail st run.id runObj1 frames e fs w
          | .ok fs =>
            let (completedAt, w) := w.nowUnix
            let runObj2 :=
              { runObj1 with
                status := .completed
                completed_at := some completedAt
                usage := usage
                output := some output }
            (.ok (), frames ++ [SSEFrame.runCompleted runObj2, SSEFrame.done], fs, w)

/-- defaultStreamRun: resolve the thread (creating one when its id is absent
from the input), then run the SSE body. -/
def defaultStreamRun (st : FileAgentStore) (input : CreateRunInput)
    (exec : ExecOutcome) (fs : FS) (w : World) :
    Except String Unit × List SSEFrame × FS × World :=
  match input.thread_id with
  | some tid => streamRunCore st input tid exec fs w
  | none =>
    match st.createThread none fs w with
    | .error e => (.error e, [], fs, w)
    | .ok (t, fs, w) => streamRunCore st input t.id exec fs w

/-! ## Lemmas about the stream adapter -/

/-- The extract loop maps each message-carrying chunk, in order, to an
assistant/completed message with the run id attached and content from
toContentBlocks. -/
theorem extract_foldl_output_map (runId : Option String) :
    ∀ (msgs : List AgentStreamMessage) (st : ExtractState),
    (msgs.foldl (extractStep runId) st).output.map
        (fun m => (m.object, m.role, m.status, m.run_id, m.content)) =
      st.output.map (fun m => (m.object, m.role, m.status, m.run_id, m.content)) ++
      (msgs.filterMap (fun c => c.message)).map
        (fun m => ("thread.message", Role.assistant, MsgStatus.completed, runId,
          toContentBlocks (some m)))
  | [], st => by simp
  | c :: cs, st => by
    cases hm : c.message with
    | none =>
      cases hu : c.usage <;>
        simp [List.foldl_cons, extractStep, hm, hu,
          extract_foldl_output_map runId cs]
    | some m =>
      cases hu : c.usage <;>
        simp [List.foldl_cons, extractStep, hm, hu, toMessageObject,
          World.nextUuid, World.nowUnix, extract_foldl_output_map runId cs]

/-- The extract loop draws one fresh uuid per message-carrying chunk, in
seed order, and leaves the supply function unchanged. -/
theorem extract_foldl_ids (runId : Option String) :
    ∀ (msgs : List AgentStreamMessage) (st : ExtractState),
    (msgs.foldl (extractStep runId) st).output.map (fun m => m.id) =
      st.output.map (fun m => m.id) ++
        (List.range (msgs.filterMap (fun c => c.message)).length).map
          (fun i => "msg_" ++ st.w.uuids (st.w.seed + i))
  | [], st => by simp
  | c :: cs, st => by
    cases hm : c.message with
    | none =>
      cases hu : c.usage <;>
        simp [List.foldl_cons, extractStep, hm, hu, extract_foldl_ids runId cs]
    | some m =>
      have hfm : List.filterMap (fun x : AgentStreamMessage => x.message) (c :: cs) =
          m :: List.filterMap (fun x : AgentStreamMessage => x.message) cs := by
        simp [List.filterMap_cons, hm]
      cases hu : c.usage <;>
      · simp only [List.foldl_cons, extractStep, hm, hu, toMessageObject,
          World.nextUuid, World.nowUnix, extract_foldl_ids runId cs, hfm,
          List.length_cons, List.range_succ_eq_map, List.map_cons,
          List.map_map, List.map_nil, List.nil_append, List.map_append,
          List.append_assoc, List.cons_append, List.singleton_append]
        simp only [Nat.add_zero, List.append_cancel_left_eq, List.cons.injEq,
          true_and]
        refine List.map_congr_left (fun i _ => ?_)
        have h1 : st.w.seed + 1 + i = st.w.seed + (i + 1) := by omega
        simp [Function.comp, h1]

/-- The extract loop accumulates prompt and completion tokens over the
usage-carrying chunks (absent counts as 0) and sets hasUsage iff one
exists. -/
theorem extract_foldl_usage (runId : Option String) :
    ∀ (msgs : List AgentStreamMessage) (st : ExtractState),
    (msgs.foldl (extractStep runId) st).hasUsage =
        (st.hasUsage || msgs.any (fun c => c.usage.isSome)) ∧
      (msgs.foldl (extractStep runId) st).promptTokens =
        st.promptTokens +
          ((msgs.filterMap (fun c => c.usage)).map
            (fun u => u.prompt_tokens.getD 0)).sum ∧
      (msgs.foldl (extractStep runId) st).completionTokens =
        st.completionTokens +
          ((msgs.filterMap (fun c => c.usage)).map
            (fun u => u.completion_tokens.getD 0)).sum
  | [], st => by simp
  | c :: cs, st => by
    cases hm : c.message with
    | none =>
      cases hu : c.usage <;>
        simp [List.foldl_cons, extractStep, hm, hu,
          extract_foldl_usage runId cs, Bool.or_assoc, add_assoc]
    | some m =>
      cases hu : c.usage <;>
        simp [List.foldl_cons, extractStep, hm, hu, toMessageObject,
          World.nextUuid, World.nowUnix, extract_foldl_usage runId cs,
          Bool.or_assoc, add_assoc]

/-- Injectivity of prefixing a fixed string onto an injective supply. -/
theorem msgid_injective (u : Nat → String) (hu : Function.Injective u)
    (s : Nat) : Function.Injective (fun i : Nat => "msg_" ++ u (s + i)) := by
  intro a b h
  have hd : ("msg_" ++ u (s + a)).data = ("msg_" ++ u (s + b)).data :=
    congrArg String.data h
  rw [String.data_append, String.data_append] at hd
  have : u (s + a) = u (s + b) := by
    apply String.ext
    exact List.append_cancel_left hd
  have := hu this
  omega

/-- C3: extractFromStreamMessages returns, in chunk order, exactly one fresh
assistant Message with status completed and the run id attached per chunk
whose message field is present; it returns a usage object iff some chunk has
a usage field, and that object satisfies
total_tokens = prompt_tokens + completion_tokens with the token fields
summed over all usage chunks, absent counts read as 0. -/
theorem claim_C3_extract_collect (chunks : List AgentStreamMessage)
    (runId : Option String) (w : World) :
    ((extractFromStreamMessages chunks runId w).1.map
        (fun m => (m.object, m.role, m.status, m.run_id, m.content)) =
      (chunks.filterMap (fun c => c.message)).map
        (fun m => ("thread.message", Role.assistant, MsgStatus.completed, runId,
          toContentBlocks (some m)))) ∧
    ((extractFromStreamMessages chunks runId w).1.map (fun m => m.id) =
      (List.range (chunks.filterMap (fun c => c.message)).length).map
        (fun i => "msg_" ++ w.uuids (w.seed + i))) ∧
    (Function.Injective w.uuids →
      ((extractFromStreamMessages chunks runId w).1.map (fun m => m.id)).Nodup) ∧
    ((extractFromStreamMessages chunks runId w).2.1.isSome = true ↔
      ∃ c ∈ chunks, c.usage.isSome = true) ∧
    (∀ u, (extractFromStreamMessages chunks runId w).2.1 = some u →
      u.total_tokens = u.prompt_tokens + u.completion_tokens ∧
      u.prompt_tokens =
        ((chunks.filterMap (fun c => c.usage)).map
          (fun x => x.prompt_tokens.getD 0)).sum ∧
      u.completion_tokens =
        ((chunks.filterMap (fun c => c.usage)).map
          (fun x => x.completion_tokens.getD 0)).sum) := by
  have hmap := extract_foldl_output_map runId chunks
    { output := [], promptTokens := 0, completionTokens := 0,
      hasUsage := false, w := w }
  have hids := extract_foldl_ids runId chunks
    { output := [], promptTokens := 0, completionTokens := 0,
      hasUsage := false, w := w }
  have husage := extract_foldl_usage runId chunks
    { output := [], promptTokens := 0, completionTokens := 0,
      hasUsage := false, w := w }
  simp only [List.map_nil, List.nil_append] at hmap hids
  refine ⟨?_, ?_, ?_, ?_, ?_⟩
  · simpa [extractFromStreamMessages] using hmap
  · simpa [extractFromStreamMessages] using hids
  · intro hInj
    have h2 : (extractFromStreamMessages chunks runId w).1.map (fun m => m.id) =
        (List.range (chunks.filterMap (fun c => c.message)).length).map
          (fun i => "msg_" ++ w.uuids (w.seed + i)) := by
      simpa [extractFromStreamMessages] using hids
    rw [h2]
    exact (List.nodup_range _).map (msgid_injective w.uuids hInj w.seed)
  · simp only [extractFromStreamMessages]
    rw [husage.1]
    cases hcase : chunks.any (fun c => c.usage.isSome) <;>
      simp [List.any_eq_true] at hcase ⊢ <;> simpa using hcase
  · intro u hu
    simp only [extractFromStreamMessages] at hu
    rw [husage.1] at hu
    simp only [Bool.false_or] at hu
    by_cases hA : chunks.any (fun c => c.usage.isSome) = true
    · rw [if_pos hA] at hu
      have hu' := Option.some.inj hu
      subst hu'
      refine ⟨rfl, ?_, ?_⟩
      · simpa using husage.2.1
      · simpa using husage.2.2
    · rw [if_neg hA] at hu
      exact Option.noConfusion hu

/-- C3 witness: on two concrete chunks with an injective uuid supply, the
collected output's ids are pairwise distinct. -/
theorem claim_C3_extract_collect_witness :
    ((extractFromStreamMessages
        [ { type := "assistant",
            message := some { role := "assistant", content := .str "hi" } },
          { type := "result",
            usage := some { prompt_tokens := some 10,
                            completion_tokens := some 5 } } ]
        (some "run_1")
        { uuids := fun n => ⟨List.replicate n 'a'⟩, seed := 0,
          times := fun _ => 100, tick := 0 }).1.map (fun m => m.id)).Nodup :=
  (claim_C3_extract_collect
    [ { type := "assistant",
        message := some { role := "assistant", content := .str "hi" } },
      { type := "result",
        usage := some { prompt_tokens := some 10,
                        completion_tokens := some 5 } } ]
    (some "run_1")
    { uuids := fun n => ⟨List.replicate n 'a'⟩, seed := 0,
      times := fun _ => 100, tick := 0 }).2.2.1 (by
    intro a b h
    simpa using congrArg (fun s : String => s.data.length) h)

/-- C4: messages appended to thread history by the default run handlers are
the converted non-system input messages followed by the adapter-built output
messages; the former never carry role system (system inputs are dropped by
the filter), the latter are always role assistant. -/
theorem claim_C4_no_system_roles (msgs : List InputMessage)
    (threadId : Option String) (w : World) (chunks : List AgentStreamMessage)
    (runId : Option String) (w2 : World) :
    (∀ m ∈ (toInputMessageObjects msgs threadId w).1,
      m.role ≠ Role.system ∧ (m.role = Role.user ∨ m.role = Role.assistant)) ∧
    (∀ m ∈ (extractFromStreamMessages chunks runId w2).1,
      m.role = Role.assistant) := by
  constructor
  · have hroles : ∀ (l : List InputMessage) (acc : List MessageObject) (w0 : World),
        (l.foldl (fun (acc : List MessageObject × World) m =>
            let (obj, w) := toInputMessageObject threadId m acc.2
            (acc.1 ++ [obj], w)) (acc, w0)).1.map (fun m => m.role) =
          acc.map (fun m => m.role) ++ l.map (fun m => m.role) := by
      intro l
      induction l with
      | nil => intro acc w0; simp
      | cons x xs ih =>
        intro acc w0
        rw [List.foldl_cons]
        have hstep : (match toInputMessageObject threadId x (acc, w0).2 with
            | (obj, w) => ((acc, w0).1 ++ [obj], w)) =
          ((acc ++ [(toInputMessageObject threadId x w0).1],
            (toInputMessageObject threadId x w0).2) :
              List MessageObject × World) := rfl
        rw [hstep, ih]
        simp [toInputMessageObject]
    intro m hm
    have hmem : m.role ∈ (toInputMessageObjects msgs threadId w).1.map
        (fun m => m.role) := List.mem_map_of_mem _ hm
    rw [toInputMessageObjects, hroles, List.map_nil, List.nil_append] at hmem
    obtain ⟨x, hx, hxr⟩ := List.mem_map.mp hmem
    have hxs : x.role ≠ Role.system := by
      have := List.of_mem_filter hx
      simpa using this
    have hns : m.role ≠ Role.system := hxr ▸ hxs
    refine ⟨hns, ?_⟩
    cases hr : m.role
    · exact Or.inl rfl
    · exact Or.inr rfl
    · exact absurd hr hns
  · intro m hm
    have hmem : (m.object, m.role, m.status, m.run_id, m.content) ∈
        (extractFromStreamMessages chunks runId w2).1.map
          (fun m => (m.object, m.role, m.status, m.run_id, m.content)) :=
      List.mem_map_of_mem _ hm
    have hmap := extract_foldl_output_map runId chunks
      { output := [], promptTokens := 0, completionTokens := 0,
        hasUsage := false, w := w2 }
    simp only [List.map_nil, List.nil_append] at hmap
    have hmap2 : (extractFromStreamMessages chunks runId w2).1.map
        (fun m => (m.object, m.role, m.status, m.run_id, m.content)) =
      (chunks.filterMap (fun c => c.message)).map
        (fun m => ("thread.message", Role.assistant, MsgStatus.completed, runId,
          toContentBlocks (some m))) := by
      simpa [extractFromStreamMessages] using hmap
    rw [hmap2] at hmem
    obtain ⟨x, _, hx⟩ := List.mem_map.mp hmem
    simp only [Prod.mk.injEq] at hx
    exact hx.2.1.symm

/-! ## Store lemmas -/

/-- A successful getRun exposes the file path and the looked-up record. -/
theorem getRun_safePath (st : FileAgentStore) (runId : String) (fs : FS)
    (run : RunRecord) (h : st.getRun runId fs = .ok run) :
    ∃ p, safePath st.runsDir runId = .ok p ∧ alookup fs.runs p = some run := by
  simp only [FileAgentStore.getRun] at h
  cases hsp : safePath st.runsDir runId with
  | error e => rw [hsp] at h; exact Except.noConfusion h
  | ok p =>
    rw [hsp] at h
    simp only [Bind.bind, Except.bind] at h
    cases halk : alookup fs.runs p with
    | none => rw [halk] at h; exact Except.noConfusion h
    | some r =>
      rw [halk] at h
      exact ⟨p, rfl, by rw [halk, Except.ok.inj h]⟩

/-- A successful getThread exposes the file path and the looked-up record. -/
theorem getThread_safePath (st : FileAgentStore) (threadId : String) (fs : FS)
    (t : ThreadRecord) (h : st.getThread threadId fs = .ok t) :
    ∃ p, safePath st.threadsDir threadId = .ok p ∧
      alookup fs.threads p = some t := by
  simp only [FileAgentStore.getThread] at h
  cases hsp : safePath st.threadsDir threadId with
  | error e => rw [hsp] at h; exact Except.noConfusion h
  | ok p =>
    rw [hsp] at h
    simp only [Bind.bind, Except.bind] at h
    cases halk : alookup fs.threads p with
    | none => rw [halk] at h; exact Except.noConfusion h
    | some r =>
      rw [halk] at h
      exact ⟨p, rfl, by rw [halk, Except.ok.inj h]⟩

/-- Reading a run back through the path its id resolves to, right after a
write at that path, yields the written record. -/
theorem getRun_after_write (st : FileAgentStore) (runId : String) (p : String)
    (rec : RunRecord) (fs : FS) (h : safePath st.runsDir runId = .ok p) :
    st.getRun runId { fs with runs := (p, rec) :: fs.runs } = .ok rec := by
  simp [FileAgentStore.getRun, h, alookup, Bind.bind, Except.bind]

/-- Reading a thread back right after a write at its id's path yields the
written record. -/
theorem getThread_after_write (st : FileAgentStore) (threadId : String)
    (p : String) (rec : ThreadRecord) (fs : FS)
    (h : safePath st.threadsDir threadId = .ok p) :
    st.getThread threadId { fs with threads := (p, rec) :: fs.threads } =
      .ok rec := by
  simp [FileAgentStore.getThread, h, alookup, Bind.bind, Except.bind]

/-- updateRun on a readable run succeeds and writes the shallow merge at the
run id's path. -/
theorem updateRun_eq (st : FileAgentStore) (runId : String) (u : RunUpdates)
    (fs : FS) (run : RunRecord) (p : String)
    (hrun : st.getRun runId fs = .ok run)
    (hp : safePath st.runsDir runId = .ok p) :
    st.updateRun runId u fs =
      .ok { fs with runs := (p, mergeRun run u) :: fs.runs } := by
  simp [FileAgentStore.updateRun, hrun, hp, Bind.bind, Except.bind]

/-! ## Claims C5 and C7 -/

/-- C5: defaultCancelRun (from the re-read after abort-and-await) fails iff
the stored status is terminal, with message
`Cannot cancel run with status '<s>'` and the store left unchanged; on a
live run it persists status cancelled with cancelled_at set and returns a
projection with status cancelled. -/
theorem claim_C5_cancelRun (st : FileAgentStore) (runId : String) (fs : FS)
    (w : World) (run : RunRecord) (hrun : st.getRun runId fs = .ok run) :
    (run.status ∈ TERMINAL_RUN_STATUSES →
      defaultCancelRun st runId fs w =
        (.error ("Cannot cancel run with status " ++ squote ++
          statusString run.status ++ squote), fs, w)) ∧
    (run.status ∉ TERMINAL_RUN_STATUSES →
      ∃ fs' w' robj,
        defaultCancelRun st runId fs w = (.ok robj, fs', w') ∧
        robj.status = .cancelled ∧
        robj.cancelled_at = some (w.times w.tick) ∧
        st.getRun runId fs' =
          .ok { run with
                status := .cancelled
                cancelled_at := some (w.times w.tick) }) := by
  obtain ⟨p, hp, _⟩ := getRun_safePath st runId fs run hrun
  constructor
  · intro hterm
    simp [defaultCancelRun, hrun, hterm]
  · intro hlive
    have hupd := updateRun_eq st runId
      { status := some .cancelled,
        cancelled_at := some (some (w.times w.tick)) } fs run p hrun hp
    refine ⟨{ fs with runs := (p, mergeRun run
        { status := some .cancelled,
          cancelled_at := some (some (w.times w.tick)) }) :: fs.runs },
      { w with tick := w.tick + 1 },
      { id := run.id, object := "thread.run", created_at := run.created_at,
        thread_id := run.thread_id, status := .cancelled,
        cancelled_at := some (w.times w.tick) }, ?_, rfl, rfl, ?_⟩
    · simp [defaultCancelRun, hrun, hlive, World.nowUnix, hupd]
    · rw [getRun_after_write st runId p _ _ hp]
      simp [mergeRun]

/-- C5 witness: cancelling a live in_progress run on a concrete store. -/
theorem claim_C5_cancelRun_witness :
    ∃ fs' w' robj,
      defaultCancelRun ⟨"/data"⟩ "run_a"
          ⟨[], [("/data/runs/run_a.json",
            { id := "run_a", object := "thread.run", status := .in_progress,
              input := [], created_at := 5 })]⟩
          { uuids := fun _ => "u", seed := 0, times := fun _ => 9, tick := 0 } =
        (.ok robj, fs', w') ∧
      robj.status = .cancelled ∧
      robj.cancelled_at = some 9 ∧
      FileAgentStore.getRun ⟨"/data"⟩ "run_a" fs' =
        .ok { id := "run_a", object := "thread.run", status := .cancelled,
              input := [], created_at := 5, cancelled_at := some 9 } :=
  (claim_C5_cancelRun ⟨"/data"⟩ "run_a"
    ⟨[], [("/data/runs/run_a.json",
      { id := "run_a", object := "thread.run", status := .in_progress,
        input := [], created_at := 5 })]⟩
    { uuids := fun _ => "u", seed := 0, times := fun _ => 9, tick := 0 }
    { id := "run_a", object := "thread.run", status := .in_progress,
      input := [], created_at := 5 }
    (by rfl)).2 (by decide)

/-- C7 counterexample: a partial that contains the `id` key does alter the
stored record's id — Object.assign merges every present key, so the claim
that id is preserved for every partial (including partials containing those
keys) fails.  Updating run `run_a` with partial `{id: "evil"}` leaves a
record whose id reads back as "evil". -/
theorem claim_C7_counterexample :
    (FileAgentStore.updateRun ⟨"/data"⟩ "run_a" { id := some "evil" }
        ⟨[], [("/data/runs/run_a.json",
          { id := "run_a", object := "thread.run", status := .queued,
            input := [], created_at := 1 })]⟩).map
      (fun fs2 =>
        (FileAgentStore.getRun ⟨"/data"⟩ "run_a" fs2).map (fun r => r.id)) =
    .ok (.ok "evil") := by rfl

/-- C7 (amended): updateRun performs read, shallow-merge, write; for every
partial that does not contain the id, created_at or input keys, the
record's id, object, created_at and input fields are unchanged (object can
never change: its type on a partial admits only the literal value). -/
theorem claim_C7_updateRun_preserves (st : FileAgentStore) (runId : String)
    (u : RunUpdates) (fs : FS) (run : RunRecord)
    (hrun : st.getRun runId fs = .ok run)
    (hid : u.id = none) (hca : u.created_at = none) (hin : u.input = none) :
    ∃ fs', st.updateRun runId u fs = .ok fs' ∧
      st.getRun runId fs' = .ok (mergeRun run u) ∧
      (mergeRun run u).id = run.id ∧
      (mergeRun run u).object = run.object ∧
      (mergeRun run u).created_at = run.created_at ∧
      (mergeRun run u).input = run.input := by
  obtain ⟨p, hp, _⟩ := getRun_safePath st runId fs run hrun
  refine ⟨_, updateRun_eq st runId u fs run p hrun hp,
    getRun_after_write st runId p _ _ hp, ?_, rfl, ?_, ?_⟩
  · simp [mergeRun, hid]
  · simp [mergeRun, hca]
  · simp [mergeRun, hin]

/-- C7 witness: a status-only partial on a concrete store preserves id,
object, created_at and input. -/
theorem claim_C7_updateRun_preserves_witness :
    ∃ fs', FileAgentStore.updateRun ⟨"/data"⟩ "run_b"
        { status := some .completed }
        ⟨[], [("/data/runs/run_b.json",
          { id := "run_b", object := "thread.run", status := .queued,
            input := [], created_at := 3 })]⟩ = .ok fs' ∧
      FileAgentStore.getRun ⟨"/data"⟩ "run_b" fs' =
        .ok (mergeRun
          { id := "run_b", object := "thread.run", status := .queued,
            input := [], created_at := 3 }
          { status := some .completed }) ∧
      (mergeRun
        { id := "run_b", object := "thread.run", status := .queued,
          input := [], created_at := 3 }
        { status := some .completed }).id =
        ({ id := "run_b", object := "thread.run", status := .queued,
           input := [], created_at := 3 } : RunRecord).id ∧
      (mergeRun
        { id := "run_b", object := "thread.run", status := .queued,
          input := [], created_at := 3 }
        { status := some .completed }).object =
        ({ id := "run_b", object := "thread.run", status := .queued,
           input := [], created_at := 3 } : RunRecord).object ∧
      (mergeRun
        { id := "run_b", object := "thread.run", status := .queued,
          input := [], created_at := 3 }
        { status := some .completed }).created_at =
        ({ id := "run_b", object := "thread.run", status := .queued,
           input := [], created_at := 3 } : RunRecord).created_at ∧
      (mergeRun
        { id := "run_b", object := "thread.run", status := .queued,
          input := [], created_at := 3 }
        { status := some .completed }).input =
        ({ id := "run_b", object := "thread.run", status := .queued,
           input := [], created_at := 3 } : RunRecord).input :=
  claim_C7_updateRun_preserves ⟨"/data"⟩ "run_b" { status := some .completed }
    ⟨[], [("/data/runs/run_b.json",
      { id := "run_b", object := "thread.run", status := .queued,
        input := [], created_at := 3 })]⟩
    { id := "run_b", object := "thread.run", status := .queued,
      input := [], created_at := 3 }
    (by rfl) rfl rfl rfl

/-! ## Claim C9 -/

/-- C9: getThread on the id returned by a preceding createThread succeeds
and returns the very record of the creation response: same id, created_at
and metadata, with an empty messages list. -/
theorem claim_C9_thread_roundtrip (st : FileAgentStore)
    (metadata : Option Metadata) (fs : FS) (w : World)
    (hid : ∃ p, safePath st.threadsDir ("thread_" ++ w.uuids w.seed) = .ok p) :
    ∃ t fs' w', st.createThread metadata fs w = .ok (t, fs', w') ∧
      st.getThread t.id fs' = .ok t ∧
      t.id = "thread_" ++ w.uuids w.seed ∧
      t.created_at = w.times w.tick ∧
      t.metadata = metadata.getD [] ∧
      t.messages = [] := by
  obtain ⟨p, hp⟩ := hid
  refine ⟨{ id := "thread_" ++ w.uuids w.seed
            object := "thread"
            messages := []
            metadata := metadata.getD []
            created_at := w.times w.tick },
    { fs with threads := (p,
        { id := "thread_" ++ w.uuids w.seed
          object := "thread"
          messages := []
          metadata := metadata.getD []
          created_at := w.times w.tick }) :: fs.threads },
    { w with seed := w.seed + 1, tick := w.tick + 1 },
    ?_, ?_, rfl, rfl, rfl, rfl⟩
  · simp [FileAgentStore.createThread, World.nextUuid, World.nowUnix, hp,
      Bind.bind, Except.bind]
  · exact getThread_after_write st _ p _ fs hp

/-- C9 witness: round trip on a concrete store. -/
theorem claim_C9_thread_roundtrip_witness :
    ∃ t fs' w',
      FileAgentStore.createThread ⟨"/data"⟩ none ⟨[], []⟩
          { uuids := fun _ => "u1", seed := 0, times := fun _ => 7, tick := 0 } =
        .ok (t, fs', w') ∧
      FileAgentStore.getThread ⟨"/data"⟩ t.id fs' = .ok t ∧
      t.id = "thread_" ++ "u1" ∧
      t.created_at = 7 ∧
      t.metadata = (none : Option Metadata).getD [] ∧
      t.messages = [] :=
  claim_C9_thread_roundtrip ⟨"/data"⟩ none ⟨[], []⟩
    { uuids := fun _ => "u1", seed := 0, times := fun _ => 7, tick := 0 }
    ⟨"/data/threads/thread_u1.json", by rfl⟩

/-! ## Handler-level lemmas -/

/-- The ThreadRecord a createThread call constructs from the current World. -/
def createdThread (metadata : Option Metadata) (w : World) : ThreadRecord :=
  { id := "thread_" ++ w.uuids w.seed
    object := "thread"
    messages := []
    metadata := metadata.getD []
    created_at := w.times w.tick }

/-- The RunRecord a createRun call constructs from the current World. -/
def createdRun (input : List InputMessage) (threadId : Option String)
    (config : Option AgentRunConfig) (metadata : Option Metadata)
    (w : World) : RunRecord :=
  { id := "run_" ++ w.uuids w.seed
    object := "thread.run"
    thread_id := threadId
    status := .queued
    input := input
    config := config
    metadata := metadata
    created_at := w.times w.tick }

/-- createThread evaluated under a valid generated id. -/
theorem createThread_eq (st : FileAgentStore) (metadata : Option Metadata)
    (fs : FS) (w : World) (p : String)
    (hp : safePath st.threadsDir ("thread_" ++ w.uuids w.seed) = .ok p) :
    st.createThread metadata fs w =
      .ok (createdThread metadata w,
        { fs with threads := (p, createdThread metadata w) :: fs.threads },
        { w with seed := w.seed + 1, tick := w.tick + 1 }) := by
  simp [FileAgentStore.createThread, World.nextUuid, World.nowUnix, hp,
    Bind.bind, Except.bind, createdThread]

/-- createRun evaluated under a valid generated id. -/
theorem createRun_eq (st : FileAgentStore) (input : List InputMessage)
    (threadId : Option String) (config : Option AgentRunConfig)
    (metadata : Option Metadata) (fs : FS) (w : World) (q : String)
    (hq : safePath st.runsDir ("run_" ++ w.uuids w.seed) = .ok q) :
    st.createRun input threadId config metadata fs w =
      .ok (createdRun input threadId config metadata w,
        { fs with runs :=
            (q, createdRun input threadId config metadata w) :: fs.runs },
        { w with seed := w.seed + 1, tick := w.tick + 1 }) := by
  simp [FileAgentStore.createRun, World.nextUuid, World.nowUnix, hq,
    Bind.bind, Except.bind, createdRun]

/-- syncFail evaluated on a readable run: persists the failed merge and
re-raises the original error message. -/
theorem syncFail_eq (st : FileAgentStore) (runId : String) (e : String)
    (fs : FS) (w : World) (run : RunRecord) (q : String)
    (hrun : st.getRun runId fs = .ok run)
    (hq : safePath st.runsDir runId = .ok q) :
    syncFail st runId e fs w =
      (.error e,
        { fs with runs := (q, mergeRun run
            { status := some .failed
              last_error := some (some (execErrorOf e))
              failed_at := some (some (w.times w.tick)) }) :: fs.runs },
        { w with tick := w.tick + 1 }) := by
  have hupd := updateRun_eq st runId
    { status := some .failed
      last_error := some (some (execErrorOf e))
      failed_at := some (some (w.times w.tick)) } fs run q hrun hq
  simp [syncFail, World.nowUnix, hupd]

/-- syncRunCore when execRun throws: the run is persisted failed with an
EXEC_ERROR last_error and failed_at set, and the error is re-raised. -/
theorem syncRunCore_execFail (st : FileAgentStore) (input : CreateRunInput)
    (tid : String) (chunks : List AgentStreamMessage) (e : String) (fs : FS)
    (w : World) (q : String)
    (hq : safePath st.runsDir ("run_" ++ w.uuids w.seed) = .ok q) :
    ∃ fs' w' rec,
      syncRunCore st input tid (chunks, some e) fs w = (.error e, fs', w') ∧
      st.getRun ("run_" ++ w.uuids w.seed) fs' = .ok rec ∧
      rec.status = .failed ∧
      rec.last_error = some (execErrorOf e) ∧
      (∃ t, rec.failed_at = some t) := by
  have hcr := createRun_eq st input.input.messages (some tid) input.config
    input.metadata fs w q hq
  set run := createdRun input.input.messages (some tid) input.config
    input.metadata w with hrundef
  have hrid : run.id = "run_" ++ w.uuids w.seed := rfl
  set fs1 : FS := { fs with runs := (q, run) :: fs.runs } with hfs1
  set w1 : World := { w with seed := w.seed + 1, tick := w.tick + 1 } with hw1
  have hget1 : st.getRun run.id fs1 = .ok run := by
    rw [hrid]
    exact getRun_after_write st _ q run fs hq
  have hq1 : safePath st.runsDir run.id = .ok q := by rw [hrid]; exact hq
  have hupd1 := updateRun_eq st run.id
    { status := some .in_progress,
      started_at := some (some (w1.times w1.tick)) } fs1 run q hget1 hq1
  set run2 := mergeRun run
    { status := some .in_progress,
      started_at := some (some (w1.times w1.tick)) } with hrun2
  set fs2 : FS := { fs1 with runs := (q, run2) :: fs1.runs } with hfs2
  have hget2 : st.getRun run.id fs2 = .ok run2 := by
    rw [hrid]
    exact getRun_after_write st _ q run2 fs1 hq
  set w2 : World := { w1 with tick := w1.tick + 1 } with hw2
  have hfail := syncFail_eq st run.id e fs2 w2 run2 q hget2 hq1
  refine ⟨{ fs2 with runs := (q, mergeRun run2
      { status := some .failed
        last_error := some (some (execErrorOf e))
        failed_at := some (some (w2.times w2.tick)) }) :: fs2.runs },
    { w2 with tick := w2.tick + 1 },
    mergeRun run2
      { status := some .failed
        last_error := some (some (execErrorOf e))
        failed_at := some (some (w2.times w2.tick)) }, ?_, ?_, rfl, rfl,
    ⟨w2.times w2.tick, rfl⟩⟩
  · simp only [syncRunCore, hcr, World.nowUnix, hupd1, hfail]
  · rw [← hrid]
    exact getRun_after_write st run.id q _ fs2 hq1

/-! ## Claim C6 -/

/-- C6: when execRun raises, defaultSyncRun persists the run with status
failed, last_error {code: EXEC_ERROR, message: the error's message},
failed_at set, and re-raises the same error to its caller. -/
theorem claim_C6_syncRun_failure (st : FileAgentStore)
    (input : CreateRunInput) (chunks : List AgentStreamMessage) (e : String)
    (fs : FS) (w : World)
    (hpaths : ∀ n,
      (∃ p, safePath st.threadsDir ("thread_" ++ w.uuids n) = .ok p) ∧
      (∃ q, safePath st.runsDir ("run_" ++ w.uuids n) = .ok q)) :
    ∃ runId fs' w' rec,
      defaultSyncRun st input (chunks, some e) fs w = (.error e, fs', w') ∧
      st.getRun runId fs' = .ok rec ∧
      rec.status = .failed ∧
      rec.last_error = some (execErrorOf e) ∧
      (∃ t, rec.failed_at = some t) := by
  cases hti : input.thread_id with
  | some tid =>
    obtain ⟨q, hq⟩ := (hpaths w.seed).2
    obtain ⟨fs', w', rec, h1, h2, h3, h4, h5⟩ :=
      syncRunCore_execFail st input tid chunks e fs w q hq
    exact ⟨_, fs', w', rec, by simp [defaultSyncRun, hti, h1], h2, h3, h4, h5⟩
  | none =>
    obtain ⟨p, hp⟩ := (hpaths w.seed).1
    have hct := createThread_eq st none fs w p hp
    obtain ⟨q, hq⟩ := (hpaths (w.seed + 1)).2
    obtain ⟨fs', w', rec, h1, h2, h3, h4, h5⟩ :=
      syncRunCore_execFail st input (createdThread none w).id chunks e
        { fs with threads := (p, createdThread none w) :: fs.threads }
        { w with seed := w.seed + 1, tick := w.tick + 1 } q hq
    exact ⟨_, fs', w', rec, by simp [defaultSyncRun, hti, hct, h1], h2, h3,
      h4, h5⟩

/-- C6 witness: a concrete failing run. -/
theorem claim_C6_syncRun_failure_witness :
    ∃ runId fs' w' rec,
      defaultSyncRun ⟨"/data"⟩
          { thread_id := some "t1", input := { messages := [] } }
          ([], some "boom")
          ⟨[], []⟩
          { uuids := fun _ => "u", seed := 0, times := fun _ => 4, tick := 0 } =
        (.error "boom", fs', w') ∧
      FileAgentStore.getRun ⟨"/data"⟩ runId fs' = .ok rec ∧
      rec.status = .failed ∧
      rec.last_error = some (execErrorOf "boom") ∧
      (∃ t, rec.failed_at = some t) :=
  claim_C6_syncRun_failure ⟨"/data"⟩
    { thread_id := some "t1", input := { messages := [] } }
    [] "boom" ⟨[], []⟩
    { uuids := fun _ => "u", seed := 0, times := fun _ => 4, tick := 0 }
    (fun _ => ⟨⟨"/data/threads/thread_u.json", rfl⟩,
      ⟨"/data/runs/run_u.json", rfl⟩⟩)

/-- appendMessages on a readable thread writes the extended record at the
thread id's path. -/
theorem appendMessages_eq (st : FileAgentStore) (tid : String)
    (msgs : List MessageObject) (fs : FS) (t0 : ThreadRecord) (pt : String)
    (ht : st.getThread tid fs = .ok t0)
    (hpt : safePath st.threadsDir tid = .ok pt) :
    st.appendMessages tid msgs fs =
      .ok { fs with threads :=
        (pt, { t0 with messages := t0.messages ++ msgs }) :: fs.threads } := by
  simp [FileAgentStore.appendMessages, ht, hpt, Bind.bind, Except.bind]

/-- The input-conversion fold appends one message per processed input. -/
theorem toInputMessageObjects_fold_length (threadId : Option String) :
    ∀ (l : List InputMessage) (acc : List MessageObject) (w0 : World),
    (l.foldl (fun (acc : List MessageObject × World) m =>
        let (obj, w) := toInputMessageObject threadId m acc.2
        (acc.1 ++ [obj], w)) (acc, w0)).1.length = acc.length + l.length
  | [], acc, w0 => by simp
  | x :: xs, acc, w0 => by
    rw [List.foldl_cons]
    have hstep : (match toInputMessageObject threadId x (acc, w0).2 with
        | (obj, w) => ((acc, w0).1 ++ [obj], w)) =
      ((acc ++ [(toInputMessageObject threadId x w0).1],
        (toInputMessageObject threadId x w0).2) :
          List MessageObject × World) := rfl
    rw [hstep, toInputMessageObjects_fold_length threadId xs]
    simp
    omega

/-- toInputMessageObjects yields exactly one MessageObject per non-system
input message. -/
theorem toInputMessageObjects_length (msgs : List InputMessage)
    (threadId : Option String) (w : World) :
    (toInputMessageObjects msgs threadId w).1.length =
      (msgs.filter (fun m => m.role ≠ Role.system)).length := by
  rw [toInputMessageObjects, toInputMessageObjects_fold_length threadId]
  simp

/-- extractFromStreamMessages yields exactly one MessageObject per
message-carrying chunk. -/
theorem extract_output_length (chunks : List AgentStreamMessage)
    (runId : Option String) (w : World) :
    (extractFromStreamMessages chunks runId w).1.length =
      (chunks.filterMap (fun c => c.message)).length := by
  have hmap := extract_foldl_output_map runId chunks
    { output := [], promptTokens := 0, completionTokens := 0,
      hasUsage := false, w := w }
  simp only [List.map_nil, List.nil_append] at hmap
  have h2 : (extractFromStreamMessages chunks runId w).1.map
      (fun m => (m.object, m.role, m.status, m.run_id, m.content)) =
    (chunks.filterMap (fun c => c.message)).map
      (fun m => ("thread.message", Role.assistant, MsgStatus.completed, runId,
        toContentBlocks (some m))) := by
    simpa [extractFromStreamMessages] using hmap
  have := congrArg List.length h2
  simpa using this

/-- syncRunCore on a successful drain: the run is created, marked
in_progress then completed, the thread receives the converted non-system
inputs followed by the collected output, and the projected run is
returned. -/
theorem syncRunCore_success (st : FileAgentStore) (input : CreateRunInput)
    (tid : String) (chunks : List AgentStreamMessage) (fs : FS) (w : World)
    (q : String) (t0 : ThreadRecord)
    (hq : safePath st.runsDir ("run_" ++ w.uuids w.seed) = .ok q)
    (ht : st.getThread tid fs = .ok t0) :
    ∃ robj fs' w' wE wI,
      syncRunCore st input tid (chunks, none) fs w = (.ok robj, fs', w') ∧
      st.getThread tid fs' =
        .ok { t0 with messages := t0.messages ++
          ((toInputMessageObjects input.input.messages (some tid) wI).1 ++
           (extractFromStreamMessages chunks
             (some ("run_" ++ w.uuids w.seed)) wE).1) } ∧
      robj.status = .completed ∧
      robj.thread_id = some tid ∧
      robj.output = some (extractFromStreamMessages chunks
        (some ("run_" ++ w.uuids w.seed)) wE).1 ∧
      robj.usage = (extractFromStreamMessages chunks
        (some ("run_" ++ w.uuids w.seed)) wE).2.1 ∧
      robj.metadata = input.metadata ∧
      (∃ s, robj.started_at = some s) ∧
      (∃ c, robj.completed_at = some c) ∧
      robj.config = none ∧
      robj.last_error = none ∧
      robj.cancelled_at = none ∧
      robj.failed_at = none := by
  obtain ⟨pt, hpt, _⟩ := getThread_safePath st tid fs t0 ht
  have hcr := createRun_eq st input.input.messages (some tid) input.config
    input.metadata fs w q hq
  set run := createdRun input.input.messages (some tid) input.config
    input.metadata w with hrundef
  have hrid : run.id = "run_" ++ w.uuids w.seed := rfl
  set fs1 : FS := { fs with runs := (q, run) :: fs.runs } with hfs1
  set w1 : World := { w with seed := w.seed + 1, tick := w.tick + 1 } with hw1
  have hget1 : st.getRun run.id fs1 = .ok run := by
    rw [hrid]; exact getRun_after_write st _ q run fs hq
  have hq1 : safePath st.runsDir run.id = .ok q := by rw [hrid]; exact hq
  have hupd1 := updateRun_eq st run.id
    { status := some .in_progress,
      started_at := some (some (w1.times w1.tick)) } fs1 run q hget1 hq1
  set run2 := mergeRun run
    { status := some .in_progress,
      started_at := some (some (w1.times w1.tick)) } with hrun2
  set fs2 : FS := { fs1 with runs := (q, run2) :: fs1.runs } with hfs2
  set w2 : World := { w1 with tick := w1.tick + 1 } with hw2
  have hget2 : st.getRun run.id fs2 = .ok run2 := by
    rw [hrid]; exact getRun_after_write st _ q run2 fs1 hq
  set output := (extractFromStreamMessages chunks (some run.id) w2).1
    with houtput
  set usage := (extractFromStreamMessages chunks (some run.id) w2).2.1
    with husage
  set w3 := (extractFromStreamMessages chunks (some run.id) w2).2.2 with hw3
  have hupd2 := updateRun_eq st run.id
    { status := some .completed
      output := some (some output)
      usage := some usage
      completed_at := some (some (w3.times w3.tick)) } fs2 run2 q hget2 hq1
  set run3 := mergeRun run2
    { status := some .completed
      output := some (some output)
      usage := some usage
      completed_at := some (some (w3.times w3.tick)) } with hrun3
  set fs3 : FS := { fs2 with runs := (q, run3) :: fs2.runs } with hfs3
  set w4 : World := { w3 with tick := w3.tick + 1 } with hw4
  set inputObjs := (toInputMessageObjects input.input.messages (some tid) w4).1
    with hinputObjs
  set w5 := (toInputMessageObjects input.input.messages (some tid) w4).2
    with hw5
  have ht3 : st.getThread tid fs3 = .ok t0 := by
    simp only [FileAgentStore.getThread, hpt, Bind.bind, Except.bind] at ht ⊢
    exact ht
  have happ := appendMessages_eq st tid (inputObjs ++ output) fs3 t0 pt ht3 hpt
  refine ⟨{ id := run.id
            object := "thread.run"
            created_at := run.created_at
            thread_id := some tid
            status := .completed
            started_at := some (w1.times w1.tick)
            completed_at := some (w3.times w3.tick)
            output := some output
            usage := usage
            metadata := run.metadata },
    { fs3 with threads :=
      (pt, { t0 with messages := t0.messages ++ (inputObjs ++ output) }) ::
        fs3.threads },
    w5, w2, w4, ?_, ?_, rfl, rfl, rfl, rfl, rfl,
    ⟨w1.times w1.tick, rfl⟩, ⟨w3.times w3.tick, rfl⟩, rfl, rfl, rfl, rfl⟩
  · simp only [syncRunCore, hcr, World.nowUnix, hupd1, ← houtput, ← husage,
      ← hw3, ← hinputObjs, ← hw5, hupd2, happ]
  · exact getThread_after_write st tid pt _ fs3 hpt

/-! ## Claim C2 -/

/-- C2: a successful defaultSyncRun call appends to the run's thread
(supplied or freshly created) exactly the converted non-system input
messages followed by the collected output messages, in that order; the
thread gains N + (number of output messages) entries, N being the number of
non-system input messages. -/
theorem claim_C2_syncRun_thread (st : FileAgentStore)
    (input : CreateRunInput) (chunks : List AgentStreamMessage) (fs : FS)
    (w : World)
    (hpaths : ∀ n,
      (∃ p, safePath st.threadsDir ("thread_" ++ w.uuids n) = .ok p) ∧
      (∃ q, safePath st.runsDir ("run_" ++ w.uuids n) = .ok q))
    (hthread : ∀ tid, input.thread_id = some tid →
      ∃ t0, st.getThread tid fs = .ok t0) :
    ∃ tid t0msgs robj fs' w' runId wE wI tNew,
      defaultSyncRun st input (chunks, none) fs w = (.ok robj, fs', w') ∧
      robj.thread_id = some tid ∧
      ((∃ t0, input.thread_id = some tid ∧ st.getThread tid fs = .ok t0 ∧
          t0msgs = t0.messages) ∨
        (input.thread_id = none ∧ t0msgs = [])) ∧
      st.getThread tid fs' = .ok tNew ∧
      tNew.messages = t0msgs ++
        ((toInputMessageObjects input.input.messages (some tid) wI).1 ++
         (extractFromStreamMessages chunks (some runId) wE).1) ∧
      (toInputMessageObjects input.input.messages (some tid) wI).1.length =
        (input.input.messages.filter (fun m => m.role ≠ Role.system)).length ∧
      tNew.messages.length = t0msgs.length +
        (input.input.messages.filter (fun m => m.role ≠ Role.system)).length +
        (extractFromStreamMessages chunks (some runId) wE).1.length ∧
      robj.output =
        some (extractFromStreamMessages chunks (some runId) wE).1 := by
  cases hti : input.thread_id with
  | some tid =>
    obtain ⟨t0, ht⟩ := hthread tid hti
    obtain ⟨q, hq⟩ := (hpaths w.seed).2
    obtain ⟨robj, fs', w', wE, wI, h1, h2, h3, h4, h5, h6, _⟩ :=
      syncRunCore_success st input tid chunks fs w q t0 hq ht
    refine ⟨tid, t0.messages, robj, fs', w', "run_" ++ w.uuids w.seed, wE, wI,
      { t0 with messages := t0.messages ++
        ((toInputMessageObjects input.input.messages (some tid) wI).1 ++
         (extractFromStreamMessages chunks
           (some ("run_" ++ w.uuids w.seed)) wE).1) },
      ?_, h4, Or.inl ⟨t0, rfl, ht, rfl⟩, h2, rfl,
      toInputMessageObjects_length input.input.messages (some tid) wI, ?_, h5⟩
    · simp [defaultSyncRun, hti, h1]
    · simp only [List.length_append, toInputMessageObjects_length]
      omega
  | none =>
    obtain ⟨p, hp⟩ := (hpaths w.seed).1
    have hct := createThread_eq st none fs w p hp
    obtain ⟨q, hq⟩ := (hpaths (w.seed + 1)).2
    have ht : st.getThread (createdThread none w).id
        { fs with threads := (p, createdThread none w) :: fs.threads } =
        .ok (createdThread none w) :=
      getThread_after_write st _ p _ fs hp
    obtain ⟨robj, fs', w', wE, wI, h1, h2, h3, h4, h5, h6, _⟩ :=
      syncRunCore_success st input (createdThread none w).id chunks
        { fs with threads := (p, createdThread none w) :: fs.threads }
        { w with seed := w.seed + 1, tick := w.tick + 1 } q
        (createdThread none w) hq ht
    refine ⟨(createdThread none w).id, [], robj, fs', w',
      "run_" ++ w.uuids (w.seed + 1), wE, wI,
      { (createdThread none w) with messages :=
        ((toInputMessageObjects input.input.messages
            (some (createdThread none w).id) wI).1 ++
         (extractFromStreamMessages chunks
           (some ("run_" ++ w.uuids (w.seed + 1))) wE).1) },
      ?_, h4, Or.inr ⟨rfl, rfl⟩, ?_, rfl,
      toInputMessageObjects_length input.input.messages _ wI, ?_, h5⟩
    · simp [defaultSyncRun, hti, hct, h1]
    · have := h2
      simpa [createdThread] using this
    · simp only [List.length_append, toInputMessageObjects_length,
        List.length_nil, createdThread]
      omega

/-- C2 witness: a concrete successful run against a supplied thread. -/
theorem claim_C2_syncRun_thread_witness :
    ∃ tid t0msgs robj fs' w' runId wE wI tNew,
      defaultSyncRun ⟨"/data"⟩
          { thread_id := some "t1",
            input := { messages := [{ role := .user, content := .str "Hi" }] } }
          ([{ type := "assistant",
              message := some { role := "assistant", content := .str "ok" } }],
            none)
          ⟨[("/data/threads/t1.json",
            { id := "t1", object := "thread", messages := [], metadata := [],
              created_at := 1 })], []⟩
          { uuids := fun _ => "u", seed := 0, times := fun _ => 4, tick := 0 } =
        (.ok robj, fs', w') ∧
      robj.thread_id = some tid ∧
      ((∃ t0, (some "t1" : Option String) = some tid ∧
          FileAgentStore.getThread ⟨"/data"⟩ tid
            ⟨[("/data/threads/t1.json",
              { id := "t1", object := "thread", messages := [], metadata := [],
                created_at := 1 })], []⟩ = .ok t0 ∧
          t0msgs = t0.messages) ∨
        ((some "t1" : Option String) = none ∧ t0msgs = [])) ∧
      FileAgentStore.getThread ⟨"/data"⟩ tid fs' = .ok tNew ∧
      tNew.messages = t0msgs ++
        ((toInputMessageObjects [{ role := .user, content := .str "Hi" }]
            (some tid) wI).1 ++
         (extractFromStreamMessages
            [{ type := "assistant",
               message := some { role := "assistant", content := .str "ok" } }]
            (some runId) wE).1) ∧
      (toInputMessageObjects [{ role := .user, content := .str "Hi" }]
          (some tid) wI).1.length =
        ([{ role := .user, content := .str "Hi" }].filter
          (fun (m : InputMessage) => m.role ≠ Role.system)).length ∧
      tNew.messages.length = t0msgs.length +
        ([{ role := .user, content := .str "Hi" }].filter
          (fun (m : InputMessage) => m.role ≠ Role.system)).length +
        (extractFromStreamMessages
          [{ type := "assistant",
             message := some { role := "assistant", content := .str "ok" } }]
          (some runId) wE).1.length ∧
      robj.output =
        some (extractFromStreamMessages
          [{ type := "assistant",
             message := some { role := "assistant", content := .str "ok" } }]
          (some runId) wE).1 :=
  claim_C2_syncRun_thread ⟨"/data"⟩
    { thread_id := some "t1",
      input := { messages := [{ role := .user, content := .str "Hi" }] } }
    [{ type := "assistant",
       message := some { role := "assistant", content := .str "ok" } }]
    ⟨[("/data/threads/t1.json",
      { id := "t1", object := "thread", messages := [], metadata := [],
        created_at := 1 })], []⟩
    { uuids := fun _ => "u", seed := 0, times := fun _ => 4, tick := 0 }
    (fun _ => ⟨⟨"/data/threads/thread_u.json", rfl⟩,
      ⟨"/data/runs/run_u.json", rfl⟩⟩)
    (fun tid htid => (Option.some.inj htid) ▸
      ⟨{ id := "t1", object := "thread", messages := [], metadata := [],
         created_at := 1 }, by rfl⟩)

/-! ## Claim C10 -/

/-- C10 counterexample: the claim contrasts cancelRun's narrow projection
with those of getRun *and syncRun* across all five fields, but syncRun's
projection also omits `config`: on a run created with a config, the run
object returned by defaultSyncRun has no config field even though the
stored record keeps it.  So the contrast, as stated, fails for
config/syncRun. -/
theorem claim_C10_counterexample :
    ((defaultSyncRun ⟨"/data"⟩
        { thread_id := some "t1", input := { messages := [] },
          config := some { max_iterations := some 3 } }
        ([], none)
        ⟨[("/data/threads/t1.json",
          { id := "t1", object := "thread", messages := [], metadata := [],
            created_at := 1 })], []⟩
        { uuids := fun _ => "x", seed := 0, times := fun _ => 4,
          tick := 0 }).1.map (fun r => r.config) = .ok none) ∧
    ((FileAgentStore.getRun ⟨"/data"⟩ "run_x"
        (defaultSyncRun ⟨"/data"⟩
          { thread_id := some "t1", input := { messages := [] },
            config := some { max_iterations := some 3 } }
          ([], none)
          ⟨[("/data/threads/t1.json",
            { id := "t1", object := "thread", messages := [], metadata := [],
              created_at := 1 })], []⟩
          { uuids := fun _ => "x", seed := 0, times := fun _ => 4,
            tick := 0 }).2.1).map (fun r => r.config) =
      .ok (some { max_iterations := some 3 })) :=
  ⟨by rfl, by rfl⟩

/-- C10 (amended): the run object returned by a successful defaultCancelRun
carries only id, object, created_at, thread_id, status and cancelled_at —
the metadata, usage, output, config and started_at fields present on the
stored record are omitted — unlike the projection returned by getRun, which
includes all five; syncRun's projection likewise includes metadata, usage,
output and started_at, though not config. -/
theorem claim_C10_cancel_projection (st : FileAgentStore) (runId : String)
    (fs : FS) (w : World) (run : RunRecord)
    (hrun : st.getRun runId fs = .ok run)
    (hlive : run.status ∉ TERMINAL_RUN_STATUSES)
    (hm : run.metadata.isSome = true) (hu : run.usage.isSome = true)
    (ho : run.output.isSome = true) (hc : run.config.isSome = true)
    (hs : run.started_at.isSome = true)
    (input : CreateRunInput) (tid : String)
    (chunks : List AgentStreamMessage) (fs2 : FS) (w2 : World) (q : String)
    (t0 : ThreadRecord)
    (htid : input.thread_id = some tid)
    (hq : safePath st.runsDir ("run_" ++ w2.uuids w2.seed) = .ok q)
    (ht : st.getThread tid fs2 = .ok t0) :
    (∃ fs' w' robj,
      defaultCancelRun st runId fs w = (.ok robj, fs', w') ∧
      robj.id = run.id ∧ robj.object = "thread.run" ∧
      robj.created_at = run.created_at ∧ robj.thread_id = run.thread_id ∧
      robj.status = .cancelled ∧ robj.cancelled_at.isSome = true ∧
      robj.metadata = none ∧ robj.usage = none ∧ robj.output = none ∧
      robj.config = none ∧ robj.started_at = none ∧
      robj.last_error = none ∧ robj.completed_at = none ∧
      robj.failed_at = none) ∧
    (∃ g, defaultGetRun st runId fs = .ok g ∧
      g.metadata = run.metadata ∧ g.usage = run.usage ∧
      g.output = run.output ∧ g.config = run.config ∧
      g.started_at = run.started_at) ∧
    (∃ robj2 fs' w' wE,
      defaultSyncRun st input (chunks, none) fs2 w2 = (.ok robj2, fs', w') ∧
      robj2.metadata = input.metadata ∧
      robj2.usage = (extractFromStreamMessages chunks
        (some ("run_" ++ w2.uuids w2.seed)) wE).2.1 ∧
      robj2.output = some (extractFromStreamMessages chunks
        (some ("run_" ++ w2.uuids w2.seed)) wE).1 ∧
      robj2.started_at.isSome = true ∧
      robj2.config = none) := by
  obtain ⟨p, hp, _⟩ := getRun_safePath st runId fs run hrun
  refine ⟨?_, ?_, ?_⟩
  · have hupd := updateRun_eq st runId
      { status := some .cancelled,
        cancelled_at := some (some (w.times w.tick)) } fs run p hrun hp
    refine ⟨{ fs with runs := (p, mergeRun run
        { status := some .cancelled,
          cancelled_at := some (some (w.times w.tick)) }) :: fs.runs },
      { w with tick := w.tick + 1 },
      { id := run.id, object := "thread.run", created_at := run.created_at,
        thread_id := run.thread_id, status := .cancelled,
        cancelled_at := some (w.times w.tick) }, ?_,
      rfl, rfl, rfl, rfl, rfl, rfl, rfl, rfl, rfl, rfl, rfl, rfl, rfl, rfl⟩
    simp [defaultCancelRun, hrun, hlive, World.nowUnix, hupd]
  · refine ⟨{ id := run.id
              object := "thread.run"
              created_at := run.created_at
              thread_id := run.thread_id
              status := run.status
              last_error := run.last_error
              started_at := run.started_at
              completed_at := run.completed_at
              cancelled_at := run.cancelled_at
              failed_at := run.failed_at
              usage := run.usage
              metadata := run.metadata
              output := run.output
              config := run.config }, ?_, rfl, rfl, rfl, rfl, rfl⟩
    simp [defaultGetRun, hrun, Bind.bind, Except.bind]
  · obtain ⟨robj2, fs', w', wE, wI, h1, h2, h3, h4, h5, h6, h7, h8, h9,
      hcfg, _, _, _⟩ :=
      syncRunCore_success st input tid chunks fs2 w2 q t0 hq ht
    obtain ⟨s, hss⟩ := h8
    exact ⟨robj2, fs', w', wE, by simp [defaultSyncRun, htid, h1], h7, h6, h5,
      by simp [hss], hcfg⟩

/-- C10 witness: concrete cancel, getRun and syncRun projections. -/
theorem claim_C10_cancel_projection_witness :
    (∃ fs' w' robj,
      defaultCancelRun ⟨"/data"⟩ "run_c"
          ⟨[], [("/data/runs/run_c.json",
            { id := "run_c", object := "thread.run", status := .in_progress,
              input := [], created_at := 5, metadata := some [("k", "v")],
              usage := some { prompt_tokens := 1, completion_tokens := 2,
                              total_tokens := 3 },
              output := some [], config := some { max_iterations := some 2 },
              started_at := some 6 })]⟩
          { uuids := fun _ => "u", seed := 0, times := fun _ => 9,
            tick := 0 } = (.ok robj, fs', w') ∧
      robj.id = "run_c" ∧ robj.object = "thread.run" ∧
      robj.created_at = 5 ∧ robj.thread_id = none ∧
      robj.status = .cancelled ∧ robj.cancelled_at.isSome = true ∧
      robj.metadata = none ∧ robj.usage = none ∧ robj.output = none ∧
      robj.config = none ∧ robj.started_at = none ∧
      robj.last_error = none ∧ robj.completed_at = none ∧
      robj.failed_at = none) ∧
    (∃ g, defaultGetRun ⟨"/data"⟩ "run_c"
          ⟨[], [("/data/runs/run_c.json",
            { id := "run_c", object := "thread.run", status := .in_progress,
              input := [], created_at := 5, metadata := some [("k", "v")],
              usage := some { prompt_tokens := 1, completion_tokens := 2,
                              total_tokens := 3 },
              output := some [], config := some { max_iterations := some 2 },
              started_at := some 6 })]⟩ = .ok g ∧
      g.metadata = some [("k", "v")] ∧
      g.usage = some { prompt_tokens := 1, completion_tokens := 2,
                       total_tokens := 3 } ∧
      g.output = some [] ∧
      g.config = some { max_iterations := some 2 } ∧
      g.started_at = some 6) ∧
    (∃ robj2 fs' w' wE,
      defaultSyncRun ⟨"/data"⟩
          { thread_id := some "t1", input := { messages := [] } }
          ([], none)
          ⟨[("/data/threads/t1.json",
            { id := "t1", object := "thread", messages := [], metadata := [],
              created_at := 1 })], []⟩
          { uuids := fun _ => "u", seed := 0, times := fun _ => 9,
            tick := 0 } = (.ok robj2, fs', w') ∧
      robj2.metadata = none ∧
      robj2.usage = (extractFromStreamMessages [] (some ("run_" ++ "u")) wE).2.1 ∧
      robj2.output = some (extractFromStreamMessages []
        (some ("run_" ++ "u")) wE).1 ∧
      robj2.started_at.isSome = true ∧
      robj2.config = none) :=
  claim_C10_cancel_projection ⟨"/data"⟩ "run_c"
    ⟨[], [("/data/runs/run_c.json",
      { id := "run_c", object := "thread.run", status := .in_progress,
        input := [], created_at := 5, metadata := some [("k", "v")],
        usage := some { prompt_tokens := 1, completion_tokens := 2,
                        total_tokens := 3 },
        output := some [], config := some { max_iterations := some 2 },
        started_at := some 6 })]⟩
    { uuids := fun _ => "u", seed := 0, times := fun _ => 9, tick := 0 }
    { id := "run_c", object := "thread.run", status := .in_progress,
      input := [], created_at := 5, metadata := some [("k", "v")],
      usage := some { prompt_tokens := 1, completion_tokens := 2,
                      total_tokens := 3 },
      output := some [], config := some { max_iterations := some 2 },
      started_at := some 6 }
    (by rfl) (by decide) rfl rfl rfl rfl rfl
    { thread_id := some "t1", input := { messages := [] } }
    "t1" []
    ⟨[("/data/threads/t1.json",
      { id := "t1", object := "thread", messages := [], metadata := [],
        created_at := 1 })], []⟩
    { uuids := fun _ => "u", seed := 0, times := fun _ => 9, tick := 0 }
    "/data/runs/run_u.json"
    { id := "t1", object := "thread", messages := [], metadata := [],
      created_at := 1 }
    rfl (by rfl) (by rfl)

/-! ## Claim C1 -/

/-- The stream loop emits exactly one delta frame per message-carrying
chunk, in chunk order, carrying that chunk's content blocks. -/
theorem streamLoop_frames (msgId : String) :
    ∀ chunks, (streamLoop msgId chunks).1 =
      (chunks.filterMap (fun c => c.message)).map
        (fun m => SSEFrame.messageDelta msgId (toContentBlocks (some m)))
  | [] => by simp [streamLoop]
  | c :: cs => by
    cases hm : c.message <;>
      simp [streamLoop, hm, streamLoop_frames msgId cs]

/-- streamRunCore on a successful drain with a connected client: the frames
written are exactly run.created, run.in_progress, message.created, one
message.delta per message-carrying chunk in order, message.completed,
run.completed, done. -/
theorem streamRunCore_frames (st : FileAgentStore) (input : CreateRunInput)
    (tid : String) (chunks : List AgentStreamMessage) (fs : FS) (w : World)
    (q : String) (t0 : ThreadRecord)
    (hq : safePath st.runsDir ("run_" ++ w.uuids w.seed) = .ok q)
    (ht : st.getThread tid fs = .ok t0) :
    ∃ r0 r1 m0 m1 r2 msgId fs' w',
      streamRunCore st input tid (chunks, none) fs w =
        (.ok (), [SSEFrame.runCreated r0, SSEFrame.runInProgress r1,
            SSEFrame.messageCreated m0] ++
          (chunks.filterMap (fun c => c.message)).map
            (fun m => SSEFrame.messageDelta msgId (toContentBlocks (some m))) ++
          [SSEFrame.messageCompleted m1, SSEFrame.runCompleted r2,
            SSEFrame.done], fs', w') := by
  obtain ⟨pt, hpt, _⟩ := getThread_safePath st tid fs t0 ht
  have hcr := createRun_eq st input.input.messages (some tid) input.config
    input.metadata fs w q hq
  set run := createdRun input.input.messages (some tid) input.config
    input.metadata w with hrundef
  have hrid : run.id = "run_" ++ w.uuids w.seed := rfl
  set fs1 : FS := { fs with runs := (q, run) :: fs.runs } with hfs1
  set w1 : World := { w with seed := w.seed + 1, tick := w.tick + 1 } with hw1
  have hget1 : st.getRun run.id fs1 = .ok run := by
    rw [hrid]; exact getRun_after_write st _ q run fs hq
  have hq1 : safePath st.runsDir run.id = .ok q := by rw [hrid]; exact hq
  have hupd1 := updateRun_eq st run.id
    { status := some .in_progress,
      started_at := some (some (w1.times w1.tick)) } fs1 run q hget1 hq1
  set run2 := mergeRun run
    { status := some .in_progress,
      started_at := some (some (w1.times w1.tick)) } with hrun2
  set fs2 : FS := { fs1 with runs := (q, run2) :: fs1.runs } with hfs2
  set w2 : World := { w1 with tick := w1.tick + 1 } with hw2
  have hget2 : st.getRun run.id fs2 = .ok run2 := by
    rw [hrid]; exact getRun_after_write st _ q run2 fs1 hq
  set msgId := "msg_" ++ w2.uuids w2.seed with hmsgId
  set w3 : World := { w2 with seed := w2.seed + 1 } with hw3
  set w4 : World := { w3 with tick := w3.tick + 1 } with hw4
  set acc := (streamLoop msgId chunks).2.1 with hacc
  set pt2 := (streamLoop msgId chunks).2.2.1 with hpt2
  set ct2 := (streamLoop msgId chunks).2.2.2.1 with hct2
  set hu2 := (streamLoop msgId chunks).2.2.2.2 with hhu2
  set output : List MessageObject :=
    if acc.length > 0 then
      [{ id := msgId, object := "thread.message",
         created_at := w3.times w3.tick, run_id := some run.id,
         role := .assistant, status := .completed, content := acc }]
    else [] with houtput
  set usage : Option RunUsage :=
    if hu2 then
      some { prompt_tokens := pt2, completion_tokens := ct2,
             total_tokens := pt2 + ct2 }
    else none with husage
  have hupd2 := updateRun_eq st run.id
    { status := some .completed
      output := some (some output)
      usage := some usage
      completed_at := some (some (w4.times w4.tick)) } fs2 run2 q hget2 hq1
  set run3 := mergeRun run2
    { status := some .completed
      output := some (some output)
      usage := some usage
      completed_at := some (some (w4.times w4.tick)) } with hrun3
  set fs3 : FS := { fs2 with runs := (q, run3) :: fs2.runs } with hfs3
  set w5 : World := { w4 with tick := w4.tick + 1 } with hw5
  set inputObjs := (toInputMessageObjects input.input.messages (some tid) w5).1
    with hinputObjs
  set w6 := (toInputMessageObjects input.input.messages (some tid) w5).2
    with hw6
  have ht3 : st.getThread tid fs3 = .ok t0 := by
    simp only [FileAgentStore.getThread, hpt, Bind.bind, Except.bind] at ht ⊢
    exact ht
  have happ := appendMessages_eq st tid (inputObjs ++ output) fs3 t0 pt ht3 hpt
  refine ⟨{ id := run.id
            object := "thread.run"
            created_at := run.created_at
            thread_id := some tid
            status := .queued
            metadata := run.metadata },
    { id := run.id
      object := "thread.run"
      created_at := run.created_at
      thread_id := some tid
      status := .in_progress
      started_at := some (w1.times w1.tick)
      metadata := run.metadata },
    { id := msgId
      object := "thread.message"
      created_at := w3.times w3.tick
      run_id := some run.id
      role := .assistant
      status := .in_progress
      content := [] },
    { id := msgId
      object := "thread.message"
      created_at := w3.times w3.tick
      run_id := some run.id
      role := .assistant
      status := .completed
      content := acc },
    { id := run.id
      object := "thread.run"
      created_at := run.created_at
      thread_id := some tid
      status := .completed
      started_at := some (w1.times w1.tick)
      completed_at := some (w6.times w6.tick)
      usage := usage
      metadata := run.metadata
      output := some output },
    msgId,
    { fs3 with threads :=
      (pt, { t0 with messages := t0.messages ++ (inputObjs ++ output) }) ::
        fs3.threads },
    { w6 with tick := w6.tick + 1 }, ?_⟩
  simp only [streamRunCore, hcr, World.nowUnix, World.nextUuid, hupd1, hupd2,
    happ, streamLoop_frames msgId chunks, ← hacc, ← hpt2, ← hct2, ← hhu2,
    ← houtput, ← husage, ← hinputObjs, ← hw6, List.append_assoc,
    List.cons_append, List.nil_append, List.singleton_append]

/-- Mapping a constant over a list yields a replicate of its length. -/
theorem list_map_constant {α β : Type} (b : β) :
    ∀ (l : List α), l.map (fun _ => b) = List.replicate l.length b
  | [] => rfl
  | x :: xs => by
    rw [List.map_cons, list_map_constant b xs, List.length_cons,
      List.replicate_succ]

/-- One message per message-carrying chunk: filterMap and filter-isSome
agree on length. -/
theorem filterMap_message_length :
    ∀ (chunks : List AgentStreamMessage),
    (chunks.filterMap (fun c => c.message)).length =
      (chunks.filter (fun c => c.message.isSome)).length
  | [] => rfl
  | c :: cs => by
    cases hm : c.message <;>
      simp [List.filterMap_cons, List.filter_cons, hm,
        filterMap_message_length cs]

/-- C1: on a success path (execRun yields its chunks and returns, the client
stays connected), defaultStreamRun writes exactly: thread.run.created,
thread.run.in_progress, thread.message.created, one thread.message.delta
per message-carrying chunk in yield order, thread.message.completed,
thread.run.completed, done — in that order with nothing interleaved. -/
theorem claim_C1_streamRun_frames (st : FileAgentStore)
    (input : CreateRunInput) (chunks : List AgentStreamMessage) (fs : FS)
    (w : World)
    (hpaths : ∀ n,
      (∃ p, safePath st.threadsDir ("thread_" ++ w.uuids n) = .ok p) ∧
      (∃ q, safePath st.runsDir ("run_" ++ w.uuids n) = .ok q))
    (hthread : ∀ tid, input.thread_id = some tid →
      ∃ t0, st.getThread tid fs = .ok t0) :
    ∃ r0 r1 m0 m1 r2 msgId fs' w' frames,
      defaultStreamRun st input (chunks, none) fs w =
        (.ok (), frames, fs', w') ∧
      frames = [SSEFrame.runCreated r0, SSEFrame.runInProgress r1,
          SSEFrame.messageCreated m0] ++
        (chunks.filterMap (fun c => c.message)).map
          (fun m => SSEFrame.messageDelta msgId (toContentBlocks (some m))) ++
        [SSEFrame.messageCompleted m1, SSEFrame.runCompleted r2,
          SSEFrame.done] ∧
      frames.map eventName =
        ["thread.run.created", "thread.run.in_progress",
          "thread.message.created"] ++
        (chunks.filter (fun c => c.message.isSome)).map
          (fun _ => "thread.message.delta") ++
        ["thread.message.completed", "thread.run.completed", "done"] := by
  cases hti : input.thread_id with
  | some tid =>
    obtain ⟨t0, ht⟩ := hthread tid hti
    obtain ⟨q, hq⟩ := (hpaths w.seed).2
    obtain ⟨r0, r1, m0, m1, r2, msgId, fs', w', hframes⟩ :=
      streamRunCore_frames st input tid chunks fs w q t0 hq ht
    refine ⟨r0, r1, m0, m1, r2, msgId, fs', w', _, ?_, rfl, ?_⟩
    · simp [defaultStreamRun, hti, hframes]
    · simp only [List.map_append, List.map_cons, List.map_nil, List.map_map,
        eventName]
      rw [show (eventName ∘ fun m => SSEFrame.messageDelta msgId
          (toContentBlocks (some m))) =
        (fun _ : StreamMsgField => "thread.message.delta") from rfl]
      rw [list_map_constant, list_map_constant, filterMap_message_length]
  | none =>
    obtain ⟨p, hp⟩ := (hpaths w.seed).1
    have hct := createThread_eq st none fs w p hp
    obtain ⟨q, hq⟩ := (hpaths (w.seed + 1)).2
    have ht : FileAgentStore.getThread st (createdThread none w).id
        { fs with threads := (p, createdThread none w) :: fs.threads } =
        .ok (createdThread none w) :=
      getThread_after_write st _ p _ fs hp
    obtain ⟨r0, r1, m0, m1, r2, msgId, fs', w', hframes⟩ :=
      streamRunCore_frames st input (createdThread none w).id chunks
        { fs with threads := (p, createdThread none w) :: fs.threads }
        { w with seed := w.seed + 1, tick := w.tick + 1 } q
        (createdThread none w) hq ht
    refine ⟨r0, r1, m0, m1, r2, msgId, fs', w', _, ?_, rfl, ?_⟩
    · simp [defaultStreamRun, hti, hct, hframes]
    · simp only [List.map_append, List.map_cons, List.map_nil, List.map_map,
        eventName]
      rw [show (eventName ∘ fun m => SSEFrame.messageDelta msgId
          (toContentBlocks (some m))) =
        (fun _ : StreamMsgField => "thread.message.delta") from rfl]
      rw [list_map_constant, list_map_constant, filterMap_message_length]

/-- C1 witness: concrete frame sequence for one message chunk and one usage
chunk. -/
theorem claim_C1_streamRun_frames_witness :
    ∃ r0 r1 m0 m1 r2 msgId fs' w' frames,
      defaultStreamRun ⟨"/data"⟩
          { thread_id := some "t1",
            input := { messages := [{ role := .user, content := .str "Hi" }] } }
          ([{ type := "assistant",
              message := some { role := "assistant", content := .str "ok" } },
            { type := "result",
              usage := some { prompt_tokens := some 10,
                              completion_tokens := some 5 } }],
            none)
          ⟨[("/data/threads/t1.json",
            { id := "t1", object := "thread", messages := [], metadata := [],
              created_at := 1 })], []⟩
          { uuids := fun _ => "u", seed := 0, times := fun _ => 4, tick := 0 } =
        (.ok (), frames, fs', w') ∧
      frames = [SSEFrame.runCreated r0, SSEFrame.runInProgress r1,
          SSEFrame.messageCreated m0] ++
        ([{ type := "assistant",
            message := some { role := "assistant", content := .str "ok" } },
          { type := "result",
            usage := some { prompt_tokens := some 10,
                            completion_tokens := some 5 } }].filterMap
          (fun (c : AgentStreamMessage) => c.message)).map
          (fun m => SSEFrame.messageDelta msgId (toContentBlocks (some m))) ++
        [SSEFrame.messageCompleted m1, SSEFrame.runCompleted r2,
          SSEFrame.done] ∧
      frames.map eventName =
        ["thread.run.created", "thread.run.in_progress",
          "thread.message.created"] ++
        ([{ type := "assistant",
            message := some { role := "assistant", content := .str "ok" } },
          { type := "result",
            usage := some { prompt_tokens := some 10,
                            completion_tokens := some 5 } }].filter
          (fun (c : AgentStreamMessage) => c.message.isSome)).map
          (fun _ => "thread.message.delta") ++
        ["thread.message.completed", "thread.run.completed", "done"] :=
  claim_C1_streamRun_frames ⟨"/data"⟩
    { thread_id := some "t1",
      input := { messages := [{ role := .user, content := .str "Hi" }] } }
    [{ type := "assistant",
       message := some { role := "assistant", content := .str "ok" } },
     { type := "result",
       usage := some { prompt_tokens := some 10,
                       completion_tokens := some 5 } }]
    ⟨[("/data/threads/t1.json",
      { id := "t1", object := "thread", messages := [], metadata := [],
        created_at := 1 })], []⟩
    { uuids := fun _ => "u", seed := 0, times := fun _ => 4, tick := 0 }
    (fun _ => ⟨⟨"/data/threads/thread_u.json", rfl⟩,
      ⟨"/data/runs/run_u.json", rfl⟩⟩)
    (fun tid htid => (Option.some.inj htid) ▸
      ⟨{ id := "t1", object := "thread", messages := [], metadata := [],
         created_at := 1 }, by rfl⟩)

/-! ## Claim C8: path traversal safety -/

/-- splitSlash never returns an empty list. -/
theorem splitSlash_ne_nil : ∀ (l acc : List Char), splitSlash l acc ≠ []
  | [], acc => by simp [splitSlash]
  | c :: cs, acc => by
    by_cases h : c = '/' <;> simp [splitSlash, h, splitSlash_ne_nil cs]

/-- Splitting distributes over a slash in the middle. -/
theorem splitSlash_append : ∀ (a b acc : List Char),
    splitSlash (a ++ '/' :: b) acc = splitSlash a acc ++ splitSlash b []
  | [], b, acc => by simp [splitSlash]
  | c :: cs, b, acc => by
    by_cases h : c = '/' <;>
      simp [splitSlash, h, splitSlash_append cs b]

/-- Components produced by splitSlash never contain a slash. -/
theorem splitSlash_no_slash : ∀ (l acc : List Char), '/' ∉ acc →
    ∀ c ∈ splitSlash l acc, '/' ∉ c
  | [], acc, hacc => by
    simp only [splitSlash, List.mem_singleton]
    intro c hc
    subst hc
    simpa using hacc
  | c :: cs, acc, hacc => by
    by_cases h : c = '/'
    · simp only [splitSlash, h, if_pos rfl]
      intro x hx
      cases hx with
      | head => simpa using hacc
      | tail _ ht => exact splitSlash_no_slash cs [] (by simp) x ht
    · simp only [splitSlash, if_neg h]
      intro x hx
      refine splitSlash_no_slash cs (c :: acc) ?_ x hx
      simp [hacc, h]
      intro he
      exact h he.symm

/-- A slash-free chunk splits as a single component (appended to the
accumulator). -/
theorem splitSlash_of_no_slash : ∀ (l acc : List Char), '/' ∉ l →
    splitSlash l acc = [acc.reverse ++ l]
  | [], acc, _ => by simp [splitSlash]
  | c :: cs, acc, h => by
    have hc : c ≠ '/' := fun he => h (he ▸ List.mem_cons_self c cs)
    have hcs : '/' ∉ cs := fun hm => h (List.mem_cons_of_mem c hm)
    simp [splitSlash, hc, splitSlash_of_no_slash cs (c :: acc) hcs]

/-- Rendering components and splitting again round-trips for nonempty
slash-free component lists. -/
theorem splitSlash_renderComps : ∀ (cs : List (List Char)), cs ≠ [] →
    (∀ c ∈ cs, '/' ∉ c) → splitSlash (renderComps cs) [] = cs
  | [], h, _ => absurd rfl h
  | [c], _, hns => by
    simp only [renderComps]
    rw [splitSlash_of_no_slash c [] (hns c (by simp))]
    simp
  | c :: c2 :: cs, _, hns => by
    show splitSlash (c ++ '/' :: renderComps (c2 :: cs)) [] = c :: c2 :: cs
    rw [splitSlash_append, splitSlash_of_no_slash c [] (hns c (by simp))]
    rw [splitSlash_renderComps (c2 :: cs) (by simp)
      (fun x hx => hns x (List.mem_cons_of_mem c hx))]
    simp

/-- isPref is the boolean prefix relation. -/
theorem isPref_iff : ∀ (p s : List Char),
    isPref p s = true ↔ ∃ t, s = p ++ t
  | [], s => by simp [isPref]
  | a :: as, [] => by
    simp [isPref]
  | a :: as, b :: bs => by
    simp only [isPref, Bool.and_eq_true, decide_eq_true_eq]
    constructor
    · rintro ⟨rfl, h⟩
      obtain ⟨t, rfl⟩ := (isPref_iff as bs).mp h
      exact ⟨t, rfl⟩
    · rintro ⟨t, ht⟩
      cases ht
      exact ⟨rfl, (isPref_iff as (as ++ t)).mpr ⟨t, rfl⟩⟩

/-- One normalisation step over an absolute path preserves cleanliness and
slash-freeness of the stack. -/
theorem normStep_clean (stack : List (List Char)) (c : List Char)
    (hst : ∀ x ∈ stack, cleanComp x = true ∧ '/' ∉ x) (hc : '/' ∉ c) :
    ∀ x ∈ normStep true stack c, cleanComp x = true ∧ '/' ∉ x := by
  by_cases h1 : c = [] ∨ c = ['.']
  · simpa [normStep, h1] using hst
  · by_cases h2 : c = ['.', '.']
    · simp only [normStep, if_neg h1, h2, if_pos rfl]
      cases stack with
      | nil => simp
      | cons t rest =>
        have htc := hst t (by simp)
        have htne : t ≠ ['.', '.'] := by
          intro he
          rw [he] at htc
          simpa [cleanComp] using htc.1
        simp only [if_neg htne]
        intro x hx
        exact hst x (List.mem_cons_of_mem t hx)
    · simp only [normStep, if_neg h1, if_neg h2]
      intro x hx
      cases hx with
      | head => exact ⟨by simp [cleanComp, h1, h2], hc⟩
      | tail _ ht => exact hst x ht

/-- The normalisation fold over an absolute path keeps the stack clean and
slash-free. -/
theorem normFold_clean : ∀ (cs : List (List Char)) (stack : List (List Char)),
    (∀ x ∈ stack, cleanComp x = true ∧ '/' ∉ x) →
    (∀ c ∈ cs, '/' ∉ c) →
    ∀ x ∈ cs.foldl (normStep true) stack, cleanComp x = true ∧ '/' ∉ x
  | [], stack, hst, _ => hst
  | c :: cs, stack, hst, hcs => by
    rw [List.foldl_cons]
    exact normFold_clean cs (normStep true stack c)
      (normStep_clean stack c hst (hcs c (by simp)))
      (fun x hx => hcs x (List.mem_cons_of_mem c hx))

/-- Absolute normalisation yields clean, slash-free components. -/
theorem normComps_clean (cs : List (List Char)) (h : ∀ c ∈ cs, '/' ∉ c) :
    ∀ x ∈ normComps true cs, cleanComp x = true ∧ '/' ∉ x := by
  intro x hx
  rw [normComps, List.mem_reverse] at hx
  exact normFold_clean cs [] (by simp) h x hx

/-- C8 counterexample: for the relative base directory `..`, the id `../x`
passes the startsWith guard — path.join("..", "../x.json") is
"../../x.json", which starts with "../" — yet the returned path resolves
outside the base directory, so the claim over every base directory is
false. -/
theorem claim_C8_counterexample :
    safePath ".." "../x" = .ok "../../x.json" ∧
    strictlyInside ".." "../../x.json" = false :=
  ⟨by rfl, by decide⟩

/-- C8 (amended): for every absolute base directory, safePath rejects the
empty id, and any path it returns lies strictly inside the base directory:
it is the base followed by a slash and a nonempty suffix whose components
are all clean (nonempty, not `.`; not `..`), so resolving it lands strictly
below the base. -/
theorem claim_C8_safePath (baseDir : String)
    (habs : baseDir.data.head? = some '/') :
    safePath baseDir "" = .error "Invalid id: id must not be empty" ∧
    (∀ id r, safePath baseDir id = .ok r →
      strictlyInside baseDir r = true) := by
  constructor
  · simp [safePath]
  · intro id r h
    by_cases hid : id = ""
    · rw [safePath, if_pos hid] at h
      exact Except.noConfusion h
    · rw [safePath, if_neg hid] at h
      by_cases hpref :
          isPref (baseDir ++ "/").data (pathJoin baseDir (id ++ ".json")).data = true
      · rw [if_pos hpref] at h
        have hr : r = pathJoin baseDir (id ++ ".json") := (Except.ok.inj h).symm
        subst hr
        -- baseDir is nonempty and starts with '/'
        obtain ⟨bt, hbd⟩ : ∃ bt, baseDir.data = '/' :: bt := by
          cases hb : baseDir.data with
          | nil => rw [hb] at habs; exact Option.noConfusion habs
          | cons c t =>
            rw [hb] at habs
            exact ⟨t, by rw [Option.some.inj habs]⟩
        have hbne : baseDir ≠ "" := by
          intro he
          rw [he] at hbd
          exact List.noConfusion hbd
        have hsegne : id ++ ".json" ≠ "" := by
          intro he
          have := congrArg String.data he
          rw [String.data_append] at this
          simpa using congrArg List.length this
        -- the joined string and its absolute normal form
        have hjoin : pathJoin baseDir (id ++ ".json") =
            normalizeStr (baseDir ++ "/" ++ (id ++ ".json")) := by
          rw [pathJoin, if_neg hbne, if_neg hsegne]
        have habs2 : ((baseDir ++ "/" ++ (id ++ ".json")).data.head? =
            some '/') := by
          rw [String.data_append, String.data_append, hbd]
          rfl
        set cs := normComps true
          (components (baseDir ++ "/" ++ (id ++ ".json"))) with hcs
        have hnorm : pathJoin baseDir (id ++ ".json") =
            renderPath true cs := by
          rw [hjoin, normalizeStr]
          simp only [habs2, decide_True]
        have hclean : ∀ x ∈ cs, cleanComp x = true ∧ '/' ∉ x := by
          rw [hcs]
          exact normComps_clean _
            (splitSlash_no_slash _ [] (by simp))
        -- decompose r.data along the prefix
        obtain ⟨t, ht⟩ := (isPref_iff _ _).mp hpref
        have hpredata : (baseDir ++ "/").data = baseDir.data ++ ['/'] := by
          rw [String.data_append]
        have htdata : (pathJoin baseDir (id ++ ".json")).data =
            (baseDir.data ++ ['/']) ++ t := by
          rw [ht, hpredata]
        -- the suffix after base + "/"
        have hdrop : (pathJoin baseDir (id ++ ".json")).data.drop
            (baseDir.data.length + 1) = t := by
          rw [htdata, show baseDir.data.length + 1 =
            (baseDir.data ++ ['/']).length by simp, List.drop_left]
        -- cs is nonempty
        cases hcsnil : cs with
        | nil =>
          exfalso
          rw [hcsnil] at hnorm
          have : (pathJoin baseDir (id ++ ".json")).data = ['/'] := by
            rw [hnorm]; rfl
          rw [htdata, hbd] at this
          have := congrArg List.length this
          simp at this
        | cons c0 cs' =>
          have hrdata : (pathJoin baseDir (id ++ ".json")).data =
              '/' :: renderComps cs := by
            rw [hnorm, hcsnil, renderPath, if_neg (by simp)]
            rw [← hcsnil]
            rfl
          -- split both representations
          have hsplit : ([] : List Char) :: cs =
              splitSlash baseDir.data [] ++ splitSlash t [] := by
            have h1 : splitSlash ((pathJoin baseDir
                (id ++ ".json")).data) [] = [] :: cs := by
              rw [hrdata]
              show splitSlash ('/' :: renderComps cs) [] = [] :: cs
              rw [splitSlash]
              rw [if_pos rfl]
              rw [splitSlash_renderComps cs (by rw [hcsnil]; simp)
                (fun x hx => (hclean x hx).2)]
              rfl
            have h2 : splitSlash ((pathJoin baseDir
                (id ++ ".json")).data) [] =
                splitSlash baseDir.data [] ++ splitSlash t [] := by
              rw [htdata, List.append_assoc, List.singleton_append,
                splitSlash_append]
            rw [← h1, h2]
          -- the split of t sits inside cs
          have hmem : ∀ x ∈ splitSlash t [], x ∈ cs := by
            cases hbs : splitSlash baseDir.data [] with
            | nil => exact absurd hbs (splitSlash_ne_nil _ _)
            | cons a bs =>
              rw [hbs] at hsplit
              have hcseq : cs = bs ++ splitSlash t [] :=
                (List.cons.inj hsplit).2
              intro x hx
              rw [hcseq]
              exact List.mem_append_right bs hx
          -- t is nonempty
          have htne : t ≠ [] := by
            intro he
            have : ([] : List Char) ∈ splitSlash t [] := by
              rw [he]; simp [splitSlash]
            have := (hclean [] (hmem [] this)).1
            simp [cleanComp] at this
          -- assemble
          rw [strictlyInside]
          rw [Bool.and_eq_true]
          refine ⟨hpref, ?_⟩
          rw [hdrop]
          rw [Bool.and_eq_true]
          constructor
          · simpa using htne
          · rw [List.all_eq_true]
            intro x hx
            exact (hclean x (hmem x hx)).1
      · rw [if_neg hpref] at h
        exact Except.noConfusion h

/-- C8 witness: a concrete absolute base directory and id. -/
theorem claim_C8_safePath_witness :
    strictlyInside "/data/threads" "/data/threads/thread_u.json" = true :=
  (claim_C8_safePath "/data/threads" rfl).2 "thread_u"
    "/data/threads/thread_u.json" (by rfl)
